import Mathlib

/-!
Verification of the resume-ingestion and candidate-ranking service.

This file gives a shallow embedding, in Lean 4, of the data-cleaning and
scoring/aggregation logic of the service:

* the resume field normalizer of `app/routers/parser.py` (`parse_resume`,
  lines 209-273), modelled over a Python-value datatype with explicit
  exception propagation (`Except`);
* the screening-question generator of `app/routers/parser.py`
  (`generate_screening_questions`);
* the suitability-score calculator, score histogram, skills-trend analysis,
  experience-level filters and 7-day performance trend of
  `app/routers/analytics.py`.

Theorems named `claim_*` settle the frozen specification claims; theorems
named `cx_*` are concrete counterexamples and `wit_*` are witnesses.
-/

set_option maxRecDepth 4096

/-- A Python value, as manipulated by the normalization code: `None`,
booleans, integers, strings, lists and string-keyed dicts (dicts are
insertion-ordered association lists, as in CPython). -/
inductive PyVal where
  | none
  | bool (b : Bool)
  | int (n : Int)
  | str (s : String)
  | list (xs : List PyVal)
  | dict (xs : List (String × PyVal))

/-- Boolean equality on Python values (structural). -/
def PyVal.beq : PyVal → PyVal → Bool
  | .none, .none => true
  | .bool a, .bool b => a == b
  | .int a, .int b => a == b
  | .str a, .str b => a == b
  | .list [], .list [] => true
  | .list (a :: as), .list (b :: bs) => PyVal.beq a b && PyVal.beq (.list as) (.list bs)
  | .dict [], .dict [] => true
  | .dict ((k, a) :: as), .dict ((k', b) :: bs) =>
      k == k' && PyVal.beq a b && PyVal.beq (.dict as) (.dict bs)
  | _, _ => false

theorem PyVal.beq_iff : ∀ a b : PyVal, PyVal.beq a b = true ↔ a = b := by
  intro a b
  induction a, b using PyVal.beq.induct with
  | case9 a b h1 h2 h3 h4 h5 h6 h7 h8 =>
      have hne : a ≠ b := by
        intro h
        subst h
        cases a with
        | none => exact h1 rfl rfl
        | bool v => exact h2 v v rfl rfl
        | int v => exact h3 v v rfl rfl
        | str v => exact h4 v v rfl rfl
        | list xs => cases xs with
            | nil => exact h5 rfl rfl
            | cons c cs => exact h6 c cs c cs rfl rfl
        | dict xs => cases xs with
            | nil => exact h7 rfl rfl
            | cons c cs => exact h8 c.1 c.2 cs c.1 c.2 cs rfl rfl
      simp_all [PyVal.beq]
  | _ => simp_all [PyVal.beq]

instance : DecidableEq PyVal := fun a b =>
  decidable_of_iff (PyVal.beq a b = true) (PyVal.beq_iff a b)

/-- A Python dict with string keys, in insertion order. -/
abbrev PyDict := List (String × PyVal)

instance {ε α : Type} [DecidableEq ε] [DecidableEq α] : DecidableEq (Except ε α) :=
  fun a b =>
    match a, b with
    | .ok x, .ok y =>
        if h : x = y then isTrue (by rw [h]) else isFalse (by simp [h])
    | .error x, .error y =>
        if h : x = y then isTrue (by rw [h]) else isFalse (by simp [h])
    | .ok _, .error _ => isFalse (by simp)
    | .error _, .ok _ => isFalse (by simp)

/-- Python exceptions that the normalization code can raise. -/
inductive PyErr where
  | attributeError
  | typeError
  | keyError
deriving DecidableEq

/-- Python truthiness (`bool(v)`): `None` and empty/zero values are falsy. -/
def PyVal.truthy : PyVal → Bool
  | .none => false
  | .bool b => b
  | .int n => n != 0
  | .str s => !s.data.isEmpty
  | .list xs => !xs.isEmpty
  | .dict xs => !xs.isEmpty

/-- Dict lookup `d[k]`: value at the first (unique, in Python) binding of `k`. -/
def dictGet (d : PyDict) (k : String) : Option PyVal :=
  match d with
  | [] => Option.none
  | (k', v) :: t => if k' = k then some v else dictGet t k

/-- Dict assignment `d[k] = v`: replace the value at `k` in place, or append a new binding,
preserving dict insertion order like CPython. -/
def dictSet (d : PyDict) (k : String) (v : PyVal) : PyDict :=
  match d with
  | [] => [(k, v)]
  | (k', v') :: t => if k' = k then (k, v) :: t else (k', v') :: dictSet t k v

/-- Python `d.setdefault(k, v)`: return the existing value if `k` is present,
otherwise insert `v` at the end and return it; also returns the updated dict. -/
def setdefaultD (d : PyDict) (k : String) (v : PyVal) : PyVal × PyDict :=
  match dictGet d k with
  | some v' => (v', d)
  | Option.none => (v, d ++ [(k, v)])

/-- Subscript access `d[k]`, raising `KeyError` when the key is absent. -/
def subscriptD (d : PyDict) (k : String) : Except PyErr PyVal :=
  match dictGet d k with
  | some v => .ok v
  | Option.none => .error .keyError

/-- ASCII whitespace recognized by Python's `str.strip` and the `\s` class. -/
def pyIsSpace (c : Char) : Bool :=
  c = ' ' || c = '\t' || c = '\n' || c = '\r' || c = '\x0b' || c = '\x0c'

/-- Python `s.strip()`: remove leading and trailing whitespace. -/
def pyStrip (s : String) : String :=
  ⟨(((s.data.dropWhile pyIsSpace).reverse.dropWhile pyIsSpace)).reverse⟩

/-- Python `s.startswith(p)` on the underlying character lists. -/
def pyStartsWith (s p : String) : Bool := p.data.isPrefixOf s.data

/-- Substring containment `p in s` on character lists. -/
def containsSubL (l p : List Char) : Bool :=
  match l with
  | [] => p.isEmpty
  | _ :: t => p.isPrefixOf l || containsSubL t p

/-- Substring containment `p in s`, as in Python's `in` operator. -/
def containsSub (s p : String) : Bool := containsSubL s.data p.data

/-- Python `s.lower()`: lower-case every character. -/
def pyToLower (s : String) : String := ⟨s.data.map Char.toLower⟩

/-- Python `val.replace("://", "")`: delete every occurrence of `"://"`. -/
def removeSchemeSeps : List Char → List Char
  | ':' :: '/' :: '/' :: t => removeSchemeSeps t
  | c :: t => c :: removeSchemeSeps t
  | [] => []

/-- A character matched by the `[^@\s]` class of the email regex. -/
def isEmailChar (c : Char) : Bool := !(c = '@' || pyIsSpace c)

/-- Whether the first of the remaining characters exists and lies in
`[^@\s]` (the lookahead needed for the final `[^@\s]+` of the regex). -/
def headIsEmailChar : List Char → Bool
  | d :: _ => isEmailChar d
  | [] => false

/-- Scanner for the `[^@\s]+\.[^@\s]+` part of the email regex, as a prefix
of the given characters; `seen` records whether at least one domain character
has been consumed. -/
def emailDomainScan (seen : Bool) : List Char → Bool
  | [] => false
  | c :: rest =>
      if seen && c = '.' && headIsEmailChar rest then true
      else if isEmailChar c then emailDomainScan true rest
      else false

/-- Scanner for the `[^@\s]+@` part of the email regex; on the `@` it hands
over to `emailDomainScan`. -/
def emailLocalScan (seen : Bool) : List Char → Bool
  | [] => false
  | c :: rest =>
      if c = '@' then seen && emailDomainScan false rest
      else if isEmailChar c then emailLocalScan true rest
      else false

/-- Python `re.match(r"[^@\s]+@[^@\s]+\.[^@\s]+", s)`: the regex matches a PREFIX of
`s` (Python `re.match` anchors only at the start). -/
def emailMatch (s : String) : Bool := emailLocalScan false s.data

/-- The shape accepted by the code's `re.match` call: SOME PREFIX of the
value decomposes as `local@domain.tld` over the `[^@\s]` classes
(arbitrary text may follow). -/
def EmailPrefixShape (s : String) : Prop :=
  ∃ (a b : List Char) (ch : Char) (r : List Char),
    s.data = a ++ '@' :: (b ++ '.' :: ch :: r) ∧
    a ≠ [] ∧ b ≠ [] ∧ a.all isEmailChar = true ∧ b.all isEmailChar = true ∧
    isEmailChar ch = true

/-- Modelled from the spec: the full `local@domain.tld` shape — non-whitespace
local part, `@`, non-whitespace domain, `.`, non-whitespace TLD, and nothing
else (the domain scan must consume the entire remainder). -/
def emailDomainFullScan (seen : Bool) : List Char → Bool
  | [] => false
  | c :: rest =>
      if seen && c = '.' && !rest.isEmpty && rest.all isEmailChar then true
      else if isEmailChar c then emailDomainFullScan true rest
      else false

/-- Modelled from the spec: full-string email shape check (see
`emailDomainFullScan`). -/
def specEmailFullShape (s : String) : Bool :=
  let rec go (seen : Bool) : List Char → Bool
    | [] => false
    | c :: rest =>
        if c = '@' then seen && emailDomainFullScan false rest
        else if isEmailChar c then go true rest
        else false
  go false s.data

/-- Characters removed by the phone-cleaning `replace` chain:
space, hyphen, parentheses. -/
def phonePunct (c : Char) : Bool := c = ' ' || c = '-' || c = '(' || c = ')'

/-- Python `re.sub(r"^\+91", "", raw)`: strip one leading `+91`. -/
def stripPlus91 (l : List Char) : List Char :=
  if ['+', '9', '1'].isPrefixOf l then l.drop 3 else l

/-- Phone cleaning from `parse_resume`: remove spaces/hyphens/parentheses,
then strip a leading `+91`. -/
def cleanPhone (s : String) : String :=
  ⟨stripPlus91 (s.data.filter (fun c => !phonePunct c))⟩

/-- Python `re.fullmatch(r"\d{10}", s)`: exactly ten digits. -/
def isTenDigits (s : String) : Bool :=
  s.data.length = 10 && s.data.all Char.isDigit

/-- Python `re.fullmatch(r"\d{2}-\d{2}-\d{4}", s)`: the `DD-MM-YYYY` digit grouping. -/
def dobMatch (s : String) : Bool :=
  match s.data with
  | [a, b, '-', c, d, '-', e, f, g, h] =>
      a.isDigit && b.isDigit && c.isDigit && d.isDigit &&
      e.isDigit && f.isDigit && g.isDigit && h.isDigit
  | _ => false

/-! ## Field normalizer (`parse_resume`, app/routers/parser.py lines 209-273) -/

/-- The separately scraped hyperlinks handed to the normalizer
(`extract_links_from_pdf` always yields a dict with string values for the
`"linkedin"` and `"github"` keys). -/
structure Links where
  linkedin : String
  github : String
deriving DecidableEq

/-- Look a field up in the scraped-links dict (`links.get(field)` /
`links[field]`); only the two known keys are ever queried. -/
def Links.getField (L : Links) (field : String) : String :=
  if field = "linkedin" then L.linkedin
  else if field = "github" then L.github
  else ""

/-- The personal-information leaf fields defaulted by `parse_resume`. -/
def piFields : List String :=
  ["full_name", "email", "phone", "location", "linkedin", "github", "date_of_birth"]

/-- Per-entry fields of an education record. -/
def educationFields : List String :=
  ["degree", "college_university", "stream_field", "year_period", "grade_cgpa_percentage"]

/-- Per-entry fields of an experience record. -/
def experienceFields : List String :=
  ["company", "role", "period", "description"]

/-- First group of per-project fields. -/
def projectFields1 : List String :=
  ["project_title", "technologies_course_semester", "description"]

/-- Second group of per-project fields. -/
def projectFields2 : List String :=
  ["url", "start_end_date", "outcome_impact", "team_size", "budget_or_size"]

/-- Run `d.setdefault(f, v)` for every field `f` in `fields`. -/
def applyDefaults (fields : List String) (v : PyVal) (d : PyDict) : PyDict :=
  fields.foldl (fun d f => (setdefaultD d f v).2) d

/-- Email validation block: `if pi["email"] and not re.match(r"[^@\s]+@[^@\s]+\.[^@\s]+", pi["email"]): pi["email"] = ""`.
A truthy non-string raises `TypeError` inside `re.match`. -/
def emailBlock (pi : PyDict) : Except PyErr PyDict := do
  let v ← subscriptD pi "email"
  if v.truthy then
    match v with
    | .str s =>
        if emailMatch s then pure pi
        else pure (dictSet pi "email" (.str ""))
    | _ => throw .typeError
  else
    pure pi

/-- Phone cleaning block: strip separators and a leading `+91`, keep the
result only if exactly ten digits remain. A truthy non-string raises
`AttributeError` on `.replace`. -/
def phoneBlock (pi : PyDict) : Except PyErr PyDict := do
  let v ← subscriptD pi "phone"
  if v.truthy then
    match v with
    | .str s =>
        let cleaned := cleanPhone s
        if isTenDigits cleaned then pure (dictSet pi "phone" (.str cleaned))
        else pure (dictSet pi "phone" (.str ""))
    | _ => throw .attributeError
  else
    pure pi

/-- Date-of-birth block: clear the value unless it fully matches
`\d{2}-\d{2}-\d{4}`. A truthy non-string raises `TypeError` in `re.fullmatch`. -/
def dobBlock (pi : PyDict) : Except PyErr PyDict := do
  let v ← subscriptD pi "date_of_birth"
  if v.truthy then
    match v with
    | .str s =>
        if dobMatch s then pure pi
        else pure (dictSet pi "date_of_birth" (.str ""))
    | _ => throw .typeError
  else
    pure pi

/-- The conditional assignment of the LinkedIn/GitHub repair: fall back to
the scraped link when the stripped value is blank, otherwise prepend
`https://` (dropping `://` fragments) when the value lacks an `http` prefix
but mentions the expected domain. -/
def linkAssign (pi : PyDict) (field linkVal val : String) : PyDict :=
  if val = "" && linkVal ≠ "" then
    dictSet pi field (.str linkVal)
  else if val ≠ "" && !pyStartsWith val "http" then
    if containsSub (pyToLower val) "linkedin.com" then
      dictSet pi field (.str ("https://" ++ (⟨removeSchemeSeps val.data⟩ : String)))
    else if containsSub (pyToLower val) "github.com" then
      dictSet pi field (.str ("https://" ++ (⟨removeSchemeSeps val.data⟩ : String)))
    else pi
  else pi

/-- The trailing `if not pi[field]: pi[field] = ""` of the link repair. -/
def linkFinalize (pi : PyDict) (field : String) : Except PyErr PyDict := do
  let v1 ← subscriptD pi field
  if v1.truthy then pure pi else pure (dictSet pi field (.str ""))

/-- LinkedIn/GitHub repair for one field (`parse_resume` lines 232-243):
`pi.get(field, "").strip()` raises `AttributeError` when the stored value
is not a string; then the conditional assignment and the final falsy
coercion run. -/
def fixLinkField (pi : PyDict) (field : String) (linkVal : String) : Except PyErr PyDict := do
  let v0 := (dictGet pi field).getD (.str "")
  let val ← match v0 with
    | .str s => pure (pyStrip s)
    | _ => throw .attributeError
  linkFinalize (linkAssign pi field linkVal val) field

/-- Default the `summary`, `skills` and `languages` keys of the
professional-summary section; a non-dict section raises `AttributeError`. -/
def normalizeSummary (v : PyVal) : Except PyErr PyVal :=
  match v with
  | .dict d =>
      let d := (setdefaultD d "summary" (.str "")).2
      let d := (setdefaultD d "skills" (.list [])).2
      let d := (setdefaultD d "languages" (.list [])).2
      .ok (.dict d)
  | _ => .error .attributeError

/-- Field-default pass for one education/experience entry: each entry must be
a dict (`ed.setdefault` raises `AttributeError` otherwise). -/
def entryFieldDefaults (fields : List String) (e : PyVal) : Except PyErr PyVal :=
  match e with
  | .dict d => .ok (.dict (applyDefaults fields (.str "") d))
  | _ => .error .attributeError

/-- The sub-document installed by `prj.setdefault("certificate", {...})`. -/
def certificateDefault : PyVal :=
  .dict [("file_name", .str ""), ("file_path", .str ""), ("uploaded_at", .str "")]

/-- Field-default pass for one project entry. -/
def normalizeProject (e : PyVal) : Except PyErr PyVal :=
  match e with
  | .dict d =>
      let d := applyDefaults projectFields1 (.str "") d
      let d := applyDefaults projectFields2 (.str "") d
      let d := (setdefaultD d "key_activities" (.list [])).2
      let d := (setdefaultD d "certificate" certificateDefault).2
      .ok (.dict d)
  | _ => .error .attributeError

/-- Sequential mapping over a Python list, propagating the first raised
exception, like the `for` loops of `parse_resume`. -/
def exceptMapList (f : PyVal → Except PyErr PyVal) : List PyVal → Except PyErr (List PyVal)
  | [] => .ok []
  | x :: t => do
      let y ← f x
      let ys ← exceptMapList f t
      .ok (y :: ys)

/-- Iterate a section value as Python's `for` does: lists map the per-entry
pass over their elements; empty strings and empty dicts iterate zero times
and are left as they are; non-empty strings and dicts yield strings (whose
`setdefault` raises `AttributeError`); `None`, numbers and booleans are not
iterable (`TypeError`). -/
def normalizeSectionList (f : PyVal → Except PyErr PyVal) (v : PyVal) : Except PyErr PyVal :=
  match v with
  | .list xs => do
      let xs' ← exceptMapList f xs
      .ok (.list xs')
  | .str s => if s.data.isEmpty then .ok v else .error .attributeError
  | .dict d => if d.isEmpty then .ok v else .error .attributeError
  | _ => .error .typeError

/-- Personal-information stage: default the seven leaf fields, then run the
email, phone, date-of-birth and link blocks, storing the mutated section
back (Python mutates the aliased sub-dict in place). -/
def stagePI (d : PyDict) (L : Links) : Except PyErr PyDict := do
  let (piV, d) := setdefaultD d "personal_information" (.dict [])
  let pi ← match piV with
    | .dict pi => pure pi
    | _ => throw .attributeError
  let pi := applyDefaults piFields (.str "") pi
  let pi ← emailBlock pi
  let pi ← phoneBlock pi
  let pi ← dobBlock pi
  let pi ← fixLinkField pi "linkedin" (L.getField "linkedin")
  let pi ← fixLinkField pi "github" (L.getField "github")
  pure (dictSet d "personal_information" (.dict pi))

/-- Professional-summary stage. -/
def stageSummary (d : PyDict) : Except PyErr PyDict := do
  let (sV, d) := setdefaultD d "professional_summary" (.dict [])
  let s' ← normalizeSummary sV
  pure (dictSet d "professional_summary" s')

/-- Generic list-section stage (education / experience / projects):
`for entry in extracted_data.setdefault(key, []): per-entry pass`. -/
def stageSection (key : String) (f : PyVal → Except PyErr PyVal) (d : PyDict) :
    Except PyErr PyDict := do
  let (v, d) := setdefaultD d key (.list [])
  let v' ← normalizeSectionList f v
  pure (dictSet d key v')

/-- Trailing defaults for the three list-valued top-level keys. -/
def stageTail (d : PyDict) : PyDict :=
  let d := (setdefaultD d "relevant_coursework" (.list [])).2
  let d := (setdefaultD d "certifications" (.list [])).2
  (setdefaultD d "extracurricular_hobbies" (.list [])).2

/-- The complete field-normalization pass of `parse_resume`
(app/routers/parser.py lines 209-273), over the extracted mapping and the
separately scraped links. -/
def normalizeResume (d : PyDict) (L : Links) : Except PyErr PyDict := do
  let d ← stagePI d L
  let d ← stageSummary d
  let d ← stageSection "education" (entryFieldDefaults educationFields) d
  let d ← stageSection "experience" (entryFieldDefaults experienceFields) d
  let d ← stageSection "projects" normalizeProject d
  pure (stageTail d)

/-- The top-level schema keys guaranteed present after normalization. -/
def schemaTopKeys : List String :=
  ["personal_information", "professional_summary", "education", "experience",
   "projects", "relevant_coursework", "certifications", "extracurricular_hobbies"]

/-- The leaf keys of the professional-summary section. -/
def summaryFields : List String := ["summary", "skills", "languages"]

/-- All per-project keys installed by the project pass. -/
def projectAllFields : List String :=
  projectFields1 ++ projectFields2 ++ ["key_activities", "certificate"]

/-- Whether an entry is a dict carrying all the given keys. -/
def entryHasKeys (fields : List String) (e : PyVal) : Bool :=
  match e with
  | .dict d => fields.all (fun f => (dictGet d f).isSome)
  | _ => false

/-- Whether a normalized record is fully populated: all top-level schema
keys present, the personal-information section a dict with its seven leaf
keys, the professional summary a dict with its three keys, and each
education/experience/project entry a dict with its per-entry keys. -/
def fullyPopulated (d : PyDict) : Bool :=
  schemaTopKeys.all (fun k => (dictGet d k).isSome) &&
  (match dictGet d "personal_information" with
   | some (.dict pi) => piFields.all (fun f => (dictGet pi f).isSome)
   | _ => false) &&
  (match dictGet d "professional_summary" with
   | some (.dict sm) => summaryFields.all (fun f => (dictGet sm f).isSome)
   | _ => false) &&
  (match dictGet d "education" with
   | some (.list xs) => xs.all (entryHasKeys educationFields)
   | _ => false) &&
  (match dictGet d "experience" with
   | some (.list xs) => xs.all (entryHasKeys experienceFields)
   | _ => false) &&
  (match dictGet d "projects" with
   | some (.list xs) => xs.all (entryHasKeys projectAllFields)
   | _ => false)

/-- Modelled from the claim: contact fields are valid-format or empty, and
the link fields are empty or `http`-prefixed. -/
def contactOk (pi : PyDict) : Bool :=
  (match dictGet pi "email" with
   | some (.str e) => e == "" || emailMatch e
   | _ => false) &&
  (match dictGet pi "phone" with
   | some (.str p) => p == "" || isTenDigits p
   | _ => false) &&
  (match dictGet pi "date_of_birth" with
   | some (.str b) => b == "" || dobMatch b
   | _ => false) &&
  (match dictGet pi "linkedin" with
   | some (.str v) => v == "" || pyStartsWith v "http"
   | _ => false) &&
  (match dictGet pi "github" with
   | some (.str v) => v == "" || pyStartsWith v "http"
   | _ => false)

/-- Modelled from the claim: an "already normalized" record — every schema
key present, contact fields valid-format or empty, LinkedIn/GitHub either
empty or `http`-prefixed. -/
def claimNormalizedPre (d : PyDict) : Bool :=
  fullyPopulated d &&
  (match dictGet d "personal_information" with
   | some (.dict pi) => contactOk pi
   | _ => false)

/-- Whether every present personal-information leaf value is a string. -/
def piFieldsAreStrings (pi : PyDict) : Prop :=
  ∀ f ∈ piFields, ∀ w, dictGet pi f = some w → ∃ s, w = .str s

/-- Whether every personal-information leaf key holds a string value. -/
def PiAllStr (pi : PyDict) : Prop :=
  ∀ f ∈ piFields, ∃ s, dictGet pi f = some (.str s)

/-- The fully defaulted personal-information section. -/
def defaultPI : PyDict :=
  [("full_name", .str ""), ("email", .str ""), ("phone", .str ""),
   ("location", .str ""), ("linkedin", .str ""), ("github", .str ""),
   ("date_of_birth", .str "")]

/-- A fully defaulted, already-normalized record, used as the concrete
witness and counterexample record for the normalizer claims. -/
def defaultRecord : PyDict :=
  [("personal_information", .dict defaultPI),
   ("professional_summary", .dict
     [("summary", .str ""), ("skills", .list []), ("languages", .list [])]),
   ("education", .list []),
   ("experience", .list []),
   ("projects", .list []),
   ("relevant_coursework", .list []),
   ("certifications", .list []),
   ("extracurricular_hobbies", .list [])]

/-- The mapping used to exhibit that the normalizer can raise: the
personal-information section holds a null LinkedIn value, on which
`pi.get("linkedin", "").strip()` raises `AttributeError`. -/
def cxNullLinkRecord : PyDict :=
  [("personal_information", .dict [("linkedin", PyVal.none)])]

/-- The LinkedIn string stored in a record (empty when absent or non-string). -/
def linkedinOf (d : PyDict) : String :=
  match dictGet d "personal_information" with
  | some (.dict pi) =>
      match dictGet pi "linkedin" with
      | some (.str s) => s
      | _ => ""
  | _ => ""

/-! ## Screening questions (`generate_screening_questions`, app/routers/parser.py) -/

/-- The fixed fallback list of five screening questions. -/
def cannedScreeningQuestions : List String :=
  [ "Tell us about your relevant experience for this role.",
    "What interests you most about this position?",
    "How do you stay updated with industry trends?",
    "Describe a challenging project you've worked on.",
    "How do you handle tight deadlines and pressure?" ]

/-- Outcome of the external model call: either the call (or the surrounding
block) raised, or it produced a parsed mapping (`clean_json_output` yields an
empty mapping on unparseable output). -/
inductive ModelCall where
  | failure
  | success (parsed : PyDict)

/-- The screening-question generator: on an exception the canned list; on
success, `questions_data.get("questions", canned)` — the value stored under
`"questions"` is returned verbatim whenever the key is present. -/
def generateScreeningQuestions : ModelCall → PyVal
  | .failure => .list (cannedScreeningQuestions.map .str)
  | .success parsed =>
      match dictGet parsed "questions" with
      | some v => v
      | Option.none => .list (cannedScreeningQuestions.map .str)

/-! ## Score calculator and aggregation (app/routers/analytics.py) -/

/-- The `professional_summary` section as read by the analytics code. -/
structure SummarySection where
  skills : Option (List PyVal)
deriving DecidableEq

/-- A stored resume as read by the scoring code: each list may be missing. -/
structure StoredResume where
  professional_summary : Option SummarySection
  experience : Option (List PyVal)
  education : Option (List PyVal)
deriving DecidableEq

/-- Count `len(resume.get("professional_summary", {}).get("skills", []))`. -/
def pySkillsCount (r : StoredResume) : ℕ :=
  ((r.professional_summary.getD ⟨Option.none⟩).skills.getD []).length

/-- Count `len(resume.get("experience", []))`. -/
def pyExperienceCount (r : StoredResume) : ℕ := (r.experience.getD []).length

/-- Count `len(resume.get("education", []))`. -/
def pyEducationCount (r : StoredResume) : ℕ := (r.education.getD []).length

/-- The suitability-score formula of `get_ranking_performance` (line 330):
`min(100, skills_count*2 + experience_count*10 + education_count*5)`. -/
def suitabilityScore (skills experience education : ℕ) : ℕ :=
  min 100 (skills * 2 + experience * 10 + education * 5)

/-- Per-resume score as computed by the Python loop of
`get_ranking_performance`. -/
def rankingScore (r : StoredResume) : ℕ :=
  min 100 (pySkillsCount r * 2 + pyExperienceCount r * 10 + pyEducationCount r * 5)

/-- Mongo `$ifNull [path, []]` of the aggregation expression. -/
def mongoIfNull (v : Option (List PyVal)) : List PyVal := v.getD []

/-- The `$professional_summary.skills` path: missing at either level means
a missing value. -/
def mongoSkillsPath (r : StoredResume) : Option (List PyVal) :=
  r.professional_summary.bind SummarySection.skills

/-- Field `calculated_score` of `get_filtered_resumes` (lines 584-597):
`$min [100, $add [$multiply [$size skills, 2], $multiply [$size experience, 10], $multiply [$size education, 5]]]`. -/
def mongoCalculatedScore (r : StoredResume) : ℕ :=
  min 100 ((mongoIfNull (mongoSkillsPath r)).length * 2 +
           (mongoIfNull r.experience).length * 10 +
           (mongoIfNull r.education).length * 5)

/-- Histogram bucket of a score: `(score // 20) * 20`. -/
def bucketOf (score : ℕ) : ℕ := score / 20 * 20

/-- The multiset of buckets of a list of scores. -/
def bucketsOf (scores : List ℕ) : List ℕ := scores.map bucketOf

/-- Breakdown `excellent`: total count of buckets `>= 80`. -/
def excellentCount (scores : List ℕ) : ℕ :=
  ((bucketsOf scores).filter (fun b => 80 ≤ b)).length

/-- Breakdown `good`: total count of buckets in `[60, 80)`. -/
def goodCount (scores : List ℕ) : ℕ :=
  ((bucketsOf scores).filter (fun b => 60 ≤ b && b < 80)).length

/-- Breakdown `average`: total count of buckets in `[40, 60)`. -/
def averageCount (scores : List ℕ) : ℕ :=
  ((bucketsOf scores).filter (fun b => 40 ≤ b && b < 60)).length

/-- Breakdown `below_average`: total count of buckets `< 40`. -/
def belowAverageCount (scores : List ℕ) : ℕ :=
  ((bucketsOf scores).filter (fun b => b < 40)).length

/-- The `exp_ranges` accumulation shared by `get_recruitment_metrics`
(lines 113-123) and `get_filtered_resumes` (lines 567-578). -/
def buildExpRanges (levels : List String) : List ℕ :=
  levels.foldl (fun acc level =>
    if level = "entry" then acc ++ [0, 1, 2]
    else if level = "mid" then acc ++ [3, 4, 5]
    else if level = "senior" then acc ++ [6, 7, 8, 9, 10]
    else acc) []

/-- Experience-level filter of `get_recruitment_metrics`: when levels are
requested, the resume's experience size must be `$in` the accumulated
ranges (even when that list is empty). -/
def metricsExpFilter (levels : List String) (expCount : ℕ) : Bool :=
  if levels.isEmpty then true
  else (buildExpRanges levels).contains expCount

/-- Experience-level filter of `get_filtered_resumes`: the `$expr` is only
added `if exp_ranges` is non-empty. -/
def filteredExpFilter (levels : List String) (expCount : ℕ) : Bool :=
  if levels.isEmpty then true
  else
    let r := buildExpRanges levels
    if r.isEmpty then true else r.contains expCount

/-- Modelled from the spec: the fixed experience-level lookup
(entry = {0,1,2}, mid = {3,4,5}, senior = {6,...,10}). -/
def claimLevelSet (level : String) : List ℕ :=
  if level = "entry" then [0, 1, 2]
  else if level = "mid" then [3, 4, 5]
  else if level = "senior" then [6, 7, 8, 9, 10]
  else []

/-! ## Skills analysis (`get_skills_analysis`, app/routers/analytics.py lines 178-279) -/

/-- A stored resume as read by the skills-analysis pipeline: upload time (in
days, ISO-string comparison being chronological), candidate name, skills. -/
structure SkillDoc where
  uploaded_at : Int
  full_name : String
  skills : List String
deriving DecidableEq

/-- Upload history used in the C4 counterexample: one resume, uploaded 100
days ago, listing the skill once. -/
def cxSkillDocs : List SkillDoc := [⟨-100, "alice", ["python"]⟩]

/-- One element of the `top_skills` output. -/
structure SkillItem where
  skill : String
  count : ℕ
  candidates : List String
  trend : ℚ
deriving DecidableEq

/-- Mongo `$unwind` of `professional_summary.skills` followed by `$toLower`:
one (lower-cased skill, candidate) pair per skill occurrence. -/
def unwindSkills (docs : List SkillDoc) : List (String × String) :=
  docs.flatMap (fun d => d.skills.map (fun s => (pyToLower s, d.full_name)))

/-- The distinct group keys of the `$group` stage. -/
def skillKeys (docs : List SkillDoc) : List String :=
  ((unwindSkills docs).map Prod.fst).dedup

/-- Group `count` for one group key: occurrences with multiplicity. -/
def skillCount (docs : List SkillDoc) (k : String) : ℕ :=
  ((unwindSkills docs).filter (fun p => p.1 = k)).length

/-- Group `candidates` (`$addToSet`) for one group key. -/
def skillCandidates (docs : List SkillDoc) (k : String) : List String :=
  (((unwindSkills docs).filter (fun p => p.1 = k)).map Prod.snd).dedup

/-- The grouped skill data before trend annotation (`trend` still absent,
read back as 0 by `item.get("trend", 0)`). -/
def mainSkillGroups (docs : List SkillDoc) : List SkillItem :=
  (skillKeys docs).map (fun k => ⟨k, skillCount docs k, skillCandidates docs k, 0⟩)

/-- Skill frequency within the uploads of the window `[lo, hi)`
(the trend pipeline matches `$gte lo`, `$lt hi`). -/
def windowSkillCount (docs : List SkillDoc) (lo hi : Int) (k : String) : ℕ :=
  skillCount (docs.filter (fun d => lo ≤ d.uploaded_at && d.uploaded_at < hi)) k

/-- Python `round(q, 1)`: round to one decimal digit. -/
def roundTo1 (q : ℚ) : ℚ := (round (q * 10) : ℤ) / 10

/-- Trend attachment of `get_skills_analysis` (lines 250-258): percentage
change against the previous-period count, rounded to one decimal; `100`
when the previous count is zero and the current one positive, else `0`. -/
def trendFor (previous current : ℕ) : ℚ :=
  if 0 < previous then roundTo1 (((current : ℚ) - previous) / previous * 100)
  else if 0 < current then 100 else 0

/-- The hard-coded skill-category table. -/
def skillCategories : List (String × List String) :=
  [ ("programming", ["python", "javascript", "java", "c++", "c#", "php", "ruby", "go", "rust"]),
    ("web", ["html", "css", "react", "angular", "vue", "nodejs", "express", "django", "flask"]),
    ("database", ["mysql", "postgresql", "mongodb", "redis", "elasticsearch", "sqlite"]),
    ("cloud", ["aws", "azure", "gcp", "docker", "kubernetes", "terraform"]),
    ("ml_ai", ["machine learning", "deep learning", "tensorflow", "pytorch", "scikit-learn", "nlp"]),
    ("mobile", ["android", "ios", "react native", "flutter", "xamarin"]),
    ("tools", ["git", "jenkins", "jira", "confluence", "slack", "figma"]) ]

/-- Insert one item into a count-descending list (`$sort {"count": -1}`). -/
def insertByCount (x : SkillItem) : List SkillItem → List SkillItem
  | [] => [x]
  | y :: t => if y.count < x.count then x :: y :: t else y :: insertByCount x t

/-- Sort the grouped skill data by `count` descending. -/
def sortByCountDesc : List SkillItem → List SkillItem
  | [] => []
  | x :: t => insertByCount x (sortByCountDesc t)

/-- Query parameters of the skills-analysis endpoint. -/
structure SkillsQuery where
  top_n : ℕ
  min_frequency : ℕ
  category_filter : Option String

/-- The `top_skills` computation of `get_skills_analysis`: group, filter by
minimum frequency, sort by count descending, take the top N, optionally
filter by category, then annotate each remaining item with its trend —
comparing the item's (all-time) count against the `[now-60, now-30)`
window's count. -/
def skillsAnalysis (docs : List SkillDoc) (now : Int) (q : SkillsQuery) : List SkillItem :=
  let data : List SkillItem := (sortByCountDesc ((mainSkillGroups docs).filter
      (fun it => q.min_frequency ≤ it.count))).take q.top_n
  let data : List SkillItem := match q.category_filter with
    | some c =>
        match skillCategories.find? (fun p => p.1 = c) with
        | some (_, catSkills) =>
            data.filter (fun it => catSkills.any (fun cs => containsSub it.skill cs))
        | Option.none => data
    | Option.none => data
  data.map (fun it =>
    { it with trend := trendFor (windowSkillCount docs (now - 60) (now - 30) it.skill) it.count })

/-- Modelled from the spec: the trend formula exactly as the specification
states it, without rounding. -/
def specTrendFormula (previous current : ℕ) : ℚ :=
  if 0 < previous then ((current : ℚ) - previous) / previous * 100
  else if 0 < current then 100 else 0

/-- Modelled from the spec: the most recent 30-day window's frequency of a
skill. -/
def specRecentWindowCount (docs : List SkillDoc) (now : Int) (k : String) : ℕ :=
  skillCount (docs.filter (fun d => now - 30 ≤ d.uploaded_at && d.uploaded_at ≤ now)) k

/-! ## 7-day performance trends (`get_ranking_performance`, lines 341-353) -/

/-- A stored resume together with its upload day (the code compares the
ISO timestamp's date prefix). -/
structure DatedResume extends StoredResume where
  uploadedDay : Int
deriving DecidableEq

/-- Day score used in `performance_trends`:
`min(100, skills*2 + experience*10)` — no education term. -/
def trendDayScore (r : DatedResume) : ℕ :=
  min 100 (pySkillsCount r.toStoredResume * 2 + pyExperienceCount r.toStoredResume * 10)

/-- One `performance_trends` entry. -/
structure TrendEntry where
  date : Int
  average_score : ℚ
  resume_count : ℕ
deriving DecidableEq

/-- The entry built for one day `i` of the loop: resumes uploaded that day,
their summed day score, and the rounded average (0 without uploads). -/
def dayEntry (resumes : List DatedResume) (day : Int) : TrendEntry :=
  let dayResumes := resumes.filter (fun r => r.uploadedDay = day)
  let dayScore := (dayResumes.map trendDayScore).sum
  let avg : ℚ := if dayResumes.isEmpty then 0 else (dayScore : ℚ) / dayResumes.length
  ⟨day, roundTo1 avg, dayResumes.length⟩

/-- List `performance_trends`: entries for the last seven days, built newest
first and then reversed. -/
def performanceTrends (resumes : List DatedResume) (today : Int) : List TrendEntry :=
  ((List.range 7).map (fun i => dayEntry resumes (today - i))).reverse

/-! ## Claim C1: suitability-score formula, range and monotonicity -/

/-- C1: for every resume record (lists defaulting to empty), the ranking
loop's score equals `min(100, skills*2 + experience*10 + education*5)`; it
lies in `[0, 100]` and is monotonically non-decreasing in each of the three
counts independently. -/
theorem claim_C1_suitability_score (r : StoredResume) (s e ed s' e' ed' : ℕ) :
    rankingScore r = suitabilityScore (pySkillsCount r) (pyExperienceCount r) (pyEducationCount r) ∧
    suitabilityScore s e ed = min 100 (s * 2 + e * 10 + ed * 5) ∧
    suitabilityScore s e ed ≤ 100 ∧
    (s ≤ s' → suitabilityScore s e ed ≤ suitabilityScore s' e ed) ∧
    (e ≤ e' → suitabilityScore s e ed ≤ suitabilityScore s e' ed) ∧
    (ed ≤ ed' → suitabilityScore s e ed ≤ suitabilityScore s e ed') := by
  refine ⟨rfl, rfl, ?_, ?_, ?_, ?_⟩ <;> unfold suitabilityScore <;> omega

/-- Witness for C1 at a concrete resume and concrete counts. -/
theorem wit_C1 :
    rankingScore ⟨some ⟨some [.str "python"]⟩, some [], some []⟩ =
      suitabilityScore 1 0 0 ∧
    suitabilityScore 3 2 1 = min 100 (3 * 2 + 2 * 10 + 1 * 5) ∧
    suitabilityScore 3 2 1 ≤ 100 ∧
    suitabilityScore 3 2 1 ≤ suitabilityScore 4 2 1 ∧
    suitabilityScore 3 2 1 ≤ suitabilityScore 3 3 1 ∧
    suitabilityScore 3 2 1 ≤ suitabilityScore 3 2 2 := by
  have h := claim_C1_suitability_score
    ⟨some ⟨some [.str "python"]⟩, some [], some []⟩ 3 2 1 4 3 2
  exact ⟨h.1, h.2.1, h.2.2.1, h.2.2.2.1 (by decide), h.2.2.2.2.1 (by decide),
    h.2.2.2.2.2 (by decide)⟩

/-! ## Claim C3: the two score implementations agree -/

/-- C3: the Python loop of `get_ranking_performance` and the inline MongoDB
aggregation expression of `get_filtered_resumes` compute the same score for
every resume, missing lists treated as empty. -/
theorem claim_C3_score_implementations_agree (r : StoredResume) :
    rankingScore r = mongoCalculatedScore r := by
  rcases r with ⟨ps, ex, ed⟩
  cases ps with
  | none => rfl
  | some sm =>
      cases sm with
      | mk sk => cases sk <;> rfl

/-! ## Claim C5: score histogram buckets -/

/-- Counterexample to C5 as stated: score 100 falls in its own bucket
`100`, not in any of the five claimed bins. -/
theorem cx_C5_bucket_of_100 :
    bucketOf 100 = 100 ∧ bucketOf 100 ∉ ([0, 20, 40, 60, 80] : List ℕ) := by
  decide

/-- C5 (amended): bucket assignment is the pure function
`(score // 20) * 20`, so scores in `[0,99]` fall into the five 20-point
bins (79 into bucket 60, 80 into bucket 80), while score 100 gets the extra
bucket 100; the derived breakdown counts nevertheless count exactly the
resumes with score ≥ 80 / 60-79 / 40-59 / < 40. -/
theorem claim_C5_histogram_amended (s : ℕ) (hs : s ≤ 100) (scores : List ℕ) :
    (s ≤ 19 → bucketOf s = 0) ∧
    (20 ≤ s → s ≤ 39 → bucketOf s = 20) ∧
    (40 ≤ s → s ≤ 59 → bucketOf s = 40) ∧
    (60 ≤ s → s ≤ 79 → bucketOf s = 60) ∧
    (80 ≤ s → s ≤ 99 → bucketOf s = 80) ∧
    (s = 100 → bucketOf s = 100) ∧
    bucketOf 79 = 60 ∧ bucketOf 80 = 80 ∧
    excellentCount scores = (scores.filter (fun x => 80 ≤ x)).length ∧
    goodCount scores = (scores.filter (fun x => 60 ≤ x && x < 80)).length ∧
    averageCount scores = (scores.filter (fun x => 40 ≤ x && x < 60)).length ∧
    belowAverageCount scores = (scores.filter (fun x => x < 40)).length := by
  have hcnt : ∀ (p q : ℕ → Bool), (∀ x, p (bucketOf x) = q x) →
      ((bucketsOf scores).filter p).length = (scores.filter q).length := by
    intro p q h
    rw [← List.countP_eq_length_filter, ← List.countP_eq_length_filter,
      bucketsOf, List.countP_map]
    exact List.countP_congr (fun x _ => by simp only [Function.comp_apply, h x])
  refine ⟨?_, ?_, ?_, ?_, ?_, ?_, by decide, by decide, ?_, ?_, ?_, ?_⟩
  · intro h; unfold bucketOf; omega
  · intro h1 h2; unfold bucketOf; omega
  · intro h1 h2; unfold bucketOf; omega
  · intro h1 h2; unfold bucketOf; omega
  · intro h1 h2; unfold bucketOf; omega
  · intro h; subst h; decide
  · exact hcnt _ _ (fun x =>
      decide_eq_decide.mpr (by unfold bucketOf; omega))
  · exact hcnt _ _ (fun x => by
      have h1 : decide (60 ≤ bucketOf x) = decide (60 ≤ x) :=
        decide_eq_decide.mpr (by unfold bucketOf; omega)
      have h2 : decide (bucketOf x < 80) = decide (x < 80) :=
        decide_eq_decide.mpr (by unfold bucketOf; omega)
      rw [h1, h2])
  · exact hcnt _ _ (fun x => by
      have h1 : decide (40 ≤ bucketOf x) = decide (40 ≤ x) :=
        decide_eq_decide.mpr (by unfold bucketOf; omega)
      have h2 : decide (bucketOf x < 60) = decide (x < 60) :=
        decide_eq_decide.mpr (by unfold bucketOf; omega)
      rw [h1, h2])
  · exact hcnt _ _ (fun x =>
      decide_eq_decide.mpr (by unfold bucketOf; omega))

/-- Witness for the amended C5 at score 79 and a concrete score list. -/
theorem wit_C5 :
    (79 ≤ 100) ∧
    ((79 ≤ 19 → bucketOf 79 = 0) ∧
    (20 ≤ 79 → 79 ≤ 39 → bucketOf 79 = 20) ∧
    (40 ≤ 79 → 79 ≤ 59 → bucketOf 79 = 40) ∧
    (60 ≤ 79 → 79 ≤ 79 → bucketOf 79 = 60) ∧
    (80 ≤ 79 → 79 ≤ 99 → bucketOf 79 = 80) ∧
    (79 = 100 → bucketOf 79 = 100) ∧
    bucketOf 79 = 60 ∧ bucketOf 80 = 80 ∧
    excellentCount [0, 45, 79, 80, 100] =
      (([0, 45, 79, 80, 100] : List ℕ).filter (fun x => 80 ≤ x)).length ∧
    goodCount [0, 45, 79, 80, 100] =
      (([0, 45, 79, 80, 100] : List ℕ).filter (fun x => 60 ≤ x && x < 80)).length ∧
    averageCount [0, 45, 79, 80, 100] =
      (([0, 45, 79, 80, 100] : List ℕ).filter (fun x => 40 ≤ x && x < 60)).length ∧
    belowAverageCount [0, 45, 79, 80, 100] =
      (([0, 45, 79, 80, 100] : List ℕ).filter (fun x => x < 40)).length) :=
  ⟨by decide, claim_C5_histogram_amended 79 (by decide) [0, 45, 79, 80, 100]⟩

/-! ## Claim C7: screening questions -/

/-- Counterexample to C7 as stated: when the model's parsed output contains
a `"questions"` key, its value is returned verbatim — here a single-question
list, not a list of exactly 5. -/
theorem cx_C7_questions_verbatim :
    generateScreeningQuestions (.success [("questions", .list [.str "Only one question"])]) =
      .list [.str "Only one question"] ∧
    ([PyVal.str "Only one question"].length ≠ 5) :=
  ⟨rfl, by decide⟩

/-- C7 (amended): the generator returns the canned 5-question list when the
model call raises or its parsed output has no `"questions"` key; whenever
the key is present its value is returned verbatim, whatever its length. -/
theorem claim_C7_screening_questions_amended (p : PyDict) (v : PyVal) :
    generateScreeningQuestions .failure = .list (cannedScreeningQuestions.map .str) ∧
    cannedScreeningQuestions.length = 5 ∧
    (dictGet p "questions" = Option.none →
      generateScreeningQuestions (.success p) = .list (cannedScreeningQuestions.map .str)) ∧
    (dictGet p "questions" = some v →
      generateScreeningQuestions (.success p) = v) := by
  refine ⟨rfl, rfl, ?_, ?_⟩ <;> intro h <;>
    simp [generateScreeningQuestions, h]

/-- Witness for the amended C7 at a concrete parsed output. -/
theorem wit_C7 :
    generateScreeningQuestions .failure = .list (cannedScreeningQuestions.map .str) ∧
    cannedScreeningQuestions.length = 5 ∧
    generateScreeningQuestions (.success [("questions", .list [])]) = .list [] := by
  have h := claim_C7_screening_questions_amended [("questions", .list [])] (.list [])
  exact ⟨h.1, h.2.1, h.2.2.2 rfl⟩

/-! ## Claim C8: experience-level bucketing -/

/-- Accumulating the per-level ranges is flat-mapping the fixed lookup. -/
theorem buildExpRanges_eq (levels : List String) :
    buildExpRanges levels = levels.flatMap claimLevelSet := by
  suffices h : ∀ acc : List ℕ, levels.foldl (fun acc level =>
      if level = "entry" then acc ++ [0, 1, 2]
      else if level = "mid" then acc ++ [3, 4, 5]
      else if level = "senior" then acc ++ [6, 7, 8, 9, 10]
      else acc) acc = acc ++ levels.flatMap claimLevelSet by
    simpa using h []
  induction levels with
  | nil => intro acc; simp
  | cons l t ih =>
      intro acc
      simp only [List.foldl_cons, List.flatMap_cons, ih]
      unfold claimLevelSet
      by_cases h1 : l = "entry" <;> by_cases h2 : l = "mid" <;>
        by_cases h3 : l = "senior" <;> simp [h1, h2, h3, List.append_assoc]

/-- Every entry of the fixed lookup is at most 10. -/
theorem claimLevelSet_le_10 (l : String) (c : ℕ) (h : c ∈ claimLevelSet l) : c ≤ 10 := by
  unfold claimLevelSet at h
  by_cases h1 : l = "entry" <;> by_cases h2 : l = "mid" <;>
    by_cases h3 : l = "senior" <;> simp [h1, h2, h3] at h <;> omega

/-- C8: in both the recruitment-metrics filter and the filtered-resumes
filter, a resume matches the requested (valid, non-empty) experience levels
iff its experience-entry count lies in one of the requested levels' fixed
sets; a count above 10 matches neither filter. -/
theorem claim_C8_experience_levels (levels : List String) (c : ℕ)
    (hne : levels ≠ [])
    (hvalid : ∀ l ∈ levels, l = "entry" ∨ l = "mid" ∨ l = "senior") :
    (metricsExpFilter levels c = true ↔ ∃ l ∈ levels, c ∈ claimLevelSet l) ∧
    (filteredExpFilter levels c = true ↔ ∃ l ∈ levels, c ∈ claimLevelSet l) ∧
    (10 < c → metricsExpFilter levels c = false ∧ filteredExpFilter levels c = false) := by
  have hmem : ∀ x : ℕ, (buildExpRanges levels).contains x = true ↔
      ∃ l ∈ levels, x ∈ claimLevelSet l := by
    intro x
    rw [List.elem_iff, buildExpRanges_eq, List.mem_flatMap]
  have hnonempty : (buildExpRanges levels).isEmpty = false := by
    rcases levels with _ | ⟨l, t⟩
    · exact absurd rfl hne
    · have hv := hvalid l (by simp)
      rw [List.isEmpty_eq_false, buildExpRanges_eq]
      intro hempty
      have : (0 : ℕ) ∈ claimLevelSet l ∨ (3 : ℕ) ∈ claimLevelSet l ∨
          (6 : ℕ) ∈ claimLevelSet l := by
        unfold claimLevelSet
        rcases hv with h | h | h <;> simp [h]
      have hsub : ∀ y : ℕ, y ∈ claimLevelSet l → y ∈ (l :: t).flatMap claimLevelSet := by
        intro y hy
        exact List.mem_flatMap.mpr ⟨l, by simp, hy⟩
      rcases this with h | h | h <;> exact (List.ne_nil_of_mem (hsub _ h)) hempty
  have hLevels : levels.isEmpty = false := by
    rcases levels with _ | _
    · exact absurd rfl hne
    · rfl
  refine ⟨?_, ?_, ?_⟩
  · rw [metricsExpFilter, hLevels]
    simpa using hmem c
  · rw [filteredExpFilter, hLevels]
    simp only [Bool.false_eq_true, if_false, hnonempty]
    simpa using hmem c
  · intro hc
    have hnot : ¬ ∃ l ∈ levels, c ∈ claimLevelSet l := by
      rintro ⟨l, _, hcl⟩
      exact absurd (claimLevelSet_le_10 l c hcl) (by omega)
    constructor
    · rw [metricsExpFilter, hLevels]
      simp only [Bool.false_eq_true, if_false]
      rw [← Bool.not_eq_true]
      intro h
      exact hnot ((hmem c).mp h)
    · rw [filteredExpFilter, hLevels]
      simp only [Bool.false_eq_true, if_false, hnonempty]
      rw [← Bool.not_eq_true]
      intro h
      exact hnot ((hmem c).mp h)

/-- Witness for C8: one valid level list, concrete counts. -/
theorem wit_C8 :
    (metricsExpFilter ["entry", "senior"] 7 = true ↔
      ∃ l ∈ ["entry", "senior"], 7 ∈ claimLevelSet l) ∧
    (filteredExpFilter ["entry", "senior"] 7 = true ↔
      ∃ l ∈ ["entry", "senior"], 7 ∈ claimLevelSet l) ∧
    (10 < 7 → metricsExpFilter ["entry", "senior"] 7 = false ∧
      filteredExpFilter ["entry", "senior"] 7 = false) :=
  claim_C8_experience_levels ["entry", "senior"] 7 (by decide)
    (by intro l hl; fin_cases hl <;> simp)

/-! ## Claim C10: 7-day performance trends -/

/-- C10: the `performance_trends` list has exactly 7 entries, ordered oldest
day first (today-6 up to today); each entry's average score is the mean over
that day's resumes of `min(100, skills*2 + experience*10)` — with no
education term — rounded to one decimal, and 0 for a day with no uploads. -/
theorem claim_C10_performance_trends (resumes : List DatedResume) (today : Int) :
    performanceTrends resumes today =
      [dayEntry resumes (today - 6), dayEntry resumes (today - 5),
       dayEntry resumes (today - 4), dayEntry resumes (today - 3),
       dayEntry resumes (today - 2), dayEntry resumes (today - 1),
       dayEntry resumes today] ∧
    (performanceTrends resumes today).length = 7 ∧
    (∀ day : Int,
      (dayEntry resumes day).date = day ∧
      (dayEntry resumes day).resume_count =
        (resumes.filter (fun r => r.uploadedDay = day)).length ∧
      ((resumes.filter (fun r => r.uploadedDay = day)).isEmpty = true →
        (dayEntry resumes day).average_score = 0) ∧
      ((resumes.filter (fun r => r.uploadedDay = day)).isEmpty = false →
        (dayEntry resumes day).average_score =
          roundTo1 ((((resumes.filter (fun r => r.uploadedDay = day)).map
              trendDayScore).sum : ℚ) /
            ((resumes.filter (fun r => r.uploadedDay = day)).length : ℚ)))) ∧
    (∀ r : DatedResume, trendDayScore r =
      min 100 (pySkillsCount r.toStoredResume * 2 +
        pyExperienceCount r.toStoredResume * 10)) := by
  have h7 : List.range 7 = [0, 1, 2, 3, 4, 5, 6] := rfl
  have h1 : performanceTrends resumes today =
      [dayEntry resumes (today - 6), dayEntry resumes (today - 5),
       dayEntry resumes (today - 4), dayEntry resumes (today - 3),
       dayEntry resumes (today - 2), dayEntry resumes (today - 1),
       dayEntry resumes today] := by
    show ((List.range 7).map (fun i => dayEntry resumes (today - i))).reverse = _
    norm_num [h7]
  refine ⟨h1, by rw [h1]; rfl, ?_, fun r => rfl⟩
  intro day
  refine ⟨rfl, rfl, ?_, ?_⟩ <;> intro h
  · simp only [dayEntry, h]
    norm_num [roundTo1]
  · simp only [dayEntry, h]
    norm_num

/-- Witness for C10 at a concrete resume list and day. -/
theorem wit_C10 :
    performanceTrends [⟨⟨some ⟨some [.str "python"]⟩, some [.none], Option.none⟩, 0⟩] 0 =
      [dayEntry [⟨⟨some ⟨some [.str "python"]⟩, some [.none], Option.none⟩, 0⟩] (0 - 6),
       dayEntry [⟨⟨some ⟨some [.str "python"]⟩, some [.none], Option.none⟩, 0⟩] (0 - 5),
       dayEntry [⟨⟨some ⟨some [.str "python"]⟩, some [.none], Option.none⟩, 0⟩] (0 - 4),
       dayEntry [⟨⟨some ⟨some [.str "python"]⟩, some [.none], Option.none⟩, 0⟩] (0 - 3),
       dayEntry [⟨⟨some ⟨some [.str "python"]⟩, some [.none], Option.none⟩, 0⟩] (0 - 2),
       dayEntry [⟨⟨some ⟨some [.str "python"]⟩, some [.none], Option.none⟩, 0⟩] (0 - 1),
       dayEntry [⟨⟨some ⟨some [.str "python"]⟩, some [.none], Option.none⟩, 0⟩] 0] ∧
    (dayEntry [⟨⟨some ⟨some [.str "python"]⟩, some [.none], Option.none⟩, 0⟩] (0 - 6)).average_score = 0 ∧
    (dayEntry [⟨⟨some ⟨some [.str "python"]⟩, some [.none], Option.none⟩, 0⟩] 0).average_score =
      roundTo1 (12 / 1 : ℚ) := by
  have h := claim_C10_performance_trends
    [⟨⟨some ⟨some [.str "python"]⟩, some [.none], Option.none⟩, 0⟩] 0
  refine ⟨h.1, (h.2.2.1 (0 - 6)).2.2.1 (by decide), ?_⟩
  have h2 := (h.2.2.1 0).2.2.2 (by decide)
  rw [h2]
  norm_num [List.filter, trendDayScore, pySkillsCount, pyExperienceCount]

/-! ## Claim C4: skill-frequency trend -/

/-- Membership is invariant under count insertion. -/
theorem mem_insertByCount (x y : SkillItem) (l : List SkillItem) :
    y ∈ insertByCount x l ↔ y = x ∨ y ∈ l := by
  induction l with
  | nil => simp [insertByCount]
  | cons z t ih =>
      simp only [insertByCount]
      split
      · simp
      · simp only [List.mem_cons, ih]
        tauto

/-- Membership is invariant under the count sort. -/
theorem mem_sortByCountDesc (y : SkillItem) (l : List SkillItem) :
    y ∈ sortByCountDesc l ↔ y ∈ l := by
  induction l with
  | nil => simp [sortByCountDesc]
  | cons z t ih =>
      simp only [sortByCountDesc, mem_insertByCount, ih, List.mem_cons]

/-- Counterexample to C4 as stated: the pipeline's `current` count is the
skill's all-time frequency, not the most recent 30-day window's. For a
resume older than both windows, both window frequencies are 0, so the
claimed formula yields 0, yet the code reports a trend of 100. -/
theorem cx_C4_trend_alltime :
    skillsAnalysis cxSkillDocs 0 ⟨20, 1, Option.none⟩ =
      [⟨"python", 1, ["alice"], 100⟩] ∧
    windowSkillCount cxSkillDocs (0 - 60) (0 - 30) "python" = 0 ∧
    specRecentWindowCount cxSkillDocs 0 "python" = 0 ∧
    specTrendFormula 0 0 = 0 ∧
    (100 : ℚ) ≠ 0 := by
  refine ⟨?_, by decide, by decide, by norm_num [specTrendFormula], by norm_num⟩
  rfl

/-- Every item of the grouped data reports the all-time count of its key. -/
theorem mainSkillGroups_count (docs : List SkillDoc) (it : SkillItem)
    (h : it ∈ mainSkillGroups docs) : it.count = skillCount docs it.skill := by
  rcases List.mem_map.mp h with ⟨k, _, rfl⟩
  rfl

/-- C4 (amended): every skill item of the skills-analysis output carries
`trend = trendFor previous current` where `previous` is the skill's
frequency in the `[now-60, now-30)` window and `current` is the item's
all-time count; `trendFor` is the claimed formula with the percentage
rounded to one decimal, and the claimed instances hold
(previous 0 / current positive gives 100, previous 10 / current 15 gives
50.0). -/
theorem claim_C4_skill_trend_amended (docs : List SkillDoc) (now : Int)
    (q : SkillsQuery) (it : SkillItem) (hit : it ∈ skillsAnalysis docs now q) :
    it.count = skillCount docs it.skill ∧
    it.trend = trendFor (windowSkillCount docs (now - 60) (now - 30) it.skill) it.count ∧
    (∀ p c : ℕ, 0 < p →
      trendFor p c = roundTo1 (((c : ℚ) - p) / p * 100)) ∧
    trendFor 0 0 = 0 ∧
    (∀ c : ℕ, 0 < c → trendFor 0 c = 100) ∧
    trendFor 10 15 = 50 := by
  rw [skillsAnalysis] at hit
  rcases List.mem_map.mp hit with ⟨it0, hit0, rfl⟩
  have hmain : it0 ∈ mainSkillGroups docs := by
    have h1 : it0 ∈ (sortByCountDesc ((mainSkillGroups docs).filter
        (fun it => q.min_frequency ≤ it.count))).take q.top_n := by
      split at hit0
      · split at hit0
        · exact (List.mem_filter.mp hit0).1
        · exact hit0
      · exact hit0
    have h2 := List.mem_of_mem_take h1
    have h3 := (mem_sortByCountDesc _ _).mp h2
    exact (List.mem_filter.mp h3).1
  refine ⟨mainSkillGroups_count docs it0 hmain, rfl, ?_, ?_, ?_, ?_⟩
  · intro p c hp
    simp [trendFor, hp]
  · norm_num [trendFor]
  · intro c hc
    simp [trendFor, hc]
  · norm_num [trendFor, roundTo1, round_eq]

/-- Witness for the amended C4 at the concrete upload history. -/
theorem wit_C4 :
    (⟨"python", 1, ["alice"], 100⟩ : SkillItem).count =
      skillCount cxSkillDocs "python" ∧
    (⟨"python", 1, ["alice"], 100⟩ : SkillItem).trend =
      trendFor (windowSkillCount cxSkillDocs (0 - 60) (0 - 30) "python")
        (⟨"python", 1, ["alice"], 100⟩ : SkillItem).count ∧
    trendFor 0 0 = 0 ∧
    trendFor 10 15 = 50 := by
  have h := claim_C4_skill_trend_amended cxSkillDocs 0 ⟨20, 1, Option.none⟩
    ⟨"python", 1, ["alice"], 100⟩ (by
      rw [show skillsAnalysis cxSkillDocs 0 ⟨20, 1, Option.none⟩ =
        [⟨"python", 1, ["alice"], 100⟩] from rfl]
      simp)
  exact ⟨h.1, h.2.1, h.2.2.2.1, h.2.2.2.2.2⟩

/-! ## Claim C6: email normalization -/

/-- An email character is not the at sign. -/
theorem isEmailChar_ne_at (c : Char) (h : isEmailChar c = true) : c ≠ '@' := by
  simp only [isEmailChar, Bool.not_eq_eq_eq_not, Bool.not_true, Bool.or_eq_false_iff,
    decide_eq_false_iff_not] at h
  exact h.1

/-- Characterization of the domain scanner. -/
theorem emailDomainScan_iff (l : List Char) (seen : Bool) :
    emailDomainScan seen l = true ↔
      ∃ (b : List Char) (ch : Char) (r : List Char),
        l = b ++ '.' :: ch :: r ∧ b.all isEmailChar = true ∧
        (seen = true ∨ b ≠ []) ∧ isEmailChar ch = true := by
  induction l generalizing seen with
  | nil =>
      simp only [emailDomainScan]
      constructor
      · intro h; cases h
      · rintro ⟨b, ch, r, h, -, -, -⟩
        exact absurd h (by cases b <;> simp)
  | cons x t ih =>
      constructor
      · intro h
        simp only [emailDomainScan] at h
        by_cases h1 : seen = true ∧ x = '.' ∧ headIsEmailChar t = true
        · rcases h1 with ⟨hs, hx, hh⟩
          rcases t with _ | ⟨ch, r⟩
          · cases hh
          · exact ⟨[], ch, r, by rw [hx]; rfl, rfl, Or.inl hs,
              by simpa [headIsEmailChar] using hh⟩
        · have hcond : (seen && decide (x = '.') && headIsEmailChar t) = false := by
            by_contra hc
            rw [Bool.not_eq_false] at hc
            rcases Bool.and_eq_true_iff.mp hc with ⟨h2, h3⟩
            rcases Bool.and_eq_true_iff.mp h2 with ⟨hs, hx⟩
            exact h1 ⟨hs, of_decide_eq_true hx, h3⟩
          rw [if_neg (by simp [hcond])] at h
          by_cases h2 : isEmailChar x = true
          · rw [if_pos h2] at h
            rcases (ih true).mp h with ⟨b, ch, r, ht, hb, -, hch⟩
            exact ⟨x :: b, ch, r, by rw [ht]; rfl, by simp [h2, hb],
              Or.inr (by simp), hch⟩
          · rw [if_neg h2] at h
            cases h
      · rintro ⟨b, ch, r, heq, hb, hseen, hch⟩
        rcases b with _ | ⟨y, b'⟩
        · rcases List.cons.inj heq with ⟨hx, ht⟩
          rcases hseen with hs | hb'
          · subst hx; subst ht; subst hs
            simp only [emailDomainScan]
            rw [if_pos (by simp [headIsEmailChar, hch])]
          · exact absurd rfl hb'
        · rcases List.cons.inj heq with ⟨hx, ht⟩
          subst hx; subst ht
          rw [List.all_cons] at hb
          rcases Bool.and_eq_true_iff.mp hb with ⟨hy, hb'⟩
          simp only [emailDomainScan, List.append_eq] at ih ⊢
          by_cases h1 : (seen && decide (x = '.') &&
              headIsEmailChar (b' ++ '.' :: ch :: r)) = true
          · rw [if_pos h1]
          · rw [if_neg h1, if_pos hy]
            exact (ih true).mpr ⟨b', ch, r, rfl, hb', Or.inl rfl, hch⟩

/-- Characterization of the local-part scanner. -/
theorem emailLocalScan_iff (l : List Char) (seen : Bool) :
    emailLocalScan seen l = true ↔
      ∃ (a rest : List Char),
        l = a ++ '@' :: rest ∧ a.all isEmailChar = true ∧
        (seen = true ∨ a ≠ []) ∧ emailDomainScan false rest = true := by
  induction l generalizing seen with
  | nil =>
      simp only [emailLocalScan]
      constructor
      · intro h; cases h
      · rintro ⟨a, rest, h, -, -, -⟩
        exact absurd h (by cases a <;> simp)
  | cons x t ih =>
      constructor
      · intro h
        simp only [emailLocalScan] at h
        by_cases hx : x = '@'
        · rw [if_pos (by simp [hx])] at h
          rcases Bool.and_eq_true_iff.mp h with ⟨hseen, hdom⟩
          exact ⟨[], t, by rw [hx]; rfl, rfl, Or.inl hseen, hdom⟩
        · rw [if_neg (by simpa using hx)] at h
          by_cases he : isEmailChar x = true
          · rw [if_pos he] at h
            rcases (ih true).mp h with ⟨a, rest, ht, ha, -, hdom⟩
            exact ⟨x :: a, rest, by rw [ht]; rfl, by simp [he, ha],
              Or.inr (by simp), hdom⟩
          · rw [if_neg he] at h
            cases h
      · rintro ⟨a, rest, heq, ha, hseen, hdom⟩
        rcases a with _ | ⟨y, a'⟩
        · rcases List.cons.inj heq with ⟨hx, ht⟩
          rcases hseen with hs | ha'
          · subst hx; subst ht; subst hs
            simp only [emailLocalScan]
            rw [if_pos (by simp)]
            simpa using hdom
          · exact absurd rfl ha'
        · rcases List.cons.inj heq with ⟨hx, ht⟩
          subst hx; subst ht
          rw [List.all_cons] at ha
          rcases Bool.and_eq_true_iff.mp ha with ⟨hy, ha'⟩
          simp only [emailLocalScan, List.append_eq] at ih ⊢
          rw [if_neg (by simpa using isEmailChar_ne_at x hy), if_pos hy]
          exact (ih true).mpr ⟨a', rest, rfl, ha', Or.inl rfl, hdom⟩

/-- The code's email test succeeds exactly on values with a matching prefix. -/
theorem emailMatch_iff (s : String) : emailMatch s = true ↔ EmailPrefixShape s := by
  rw [emailMatch, emailLocalScan_iff]
  constructor
  · rintro ⟨a, rest, heq, hall, hne, hdom⟩
    have hne' : a ≠ [] := by
      rcases hne with h | h
      · cases h
      · exact h
    rcases (emailDomainScan_iff rest false).mp hdom with ⟨b, ch, r, hr, hb, hbne, hch⟩
    have hbne' : b ≠ [] := by
      rcases hbne with h | h
      · cases h
      · exact h
    exact ⟨a, b, ch, r, by rw [heq, hr], hne', hbne', hall, hb, hch⟩
  · rintro ⟨a, b, ch, r, heq, ha, hb, hallA, hallB, hch⟩
    exact ⟨a, b ++ '.' :: ch :: r, heq, hallA, Or.inr ha,
      (emailDomainScan_iff _ false).mpr ⟨b, ch, r, rfl, hallB, Or.inr hb, hch⟩⟩

/-- Counterexample to C6 as stated: `"a@b.c x"` does not have the full
`local@domain.tld` shape (it contains a space and trailing text), yet the
email block keeps it unchanged, because `re.match` only requires a matching
prefix. -/
theorem cx_C6_email_prefix_only :
    specEmailFullShape "a@b.c x" = false ∧
    emailBlock [("email", .str "a@b.c x")] = .ok [("email", .str "a@b.c x")] :=
  ⟨by decide, rfl⟩

/-- C6 (amended): a non-empty email value is accepted iff SOME PREFIX of it
matches `local@domain.tld` over the `[^@\s]` classes; accepted values are
kept verbatim and all others are cleared to the empty string. In particular
`"a@b.com"` is kept and `"not-an-email"` is cleared. -/
theorem claim_C6_email_normalization_amended (pi : PyDict) (s : String)
    (h : dictGet pi "email" = some (.str s)) :
    (emailMatch s = true ↔ EmailPrefixShape s) ∧
    (emailMatch s = true → emailBlock pi = .ok pi) ∧
    (s ≠ "" → emailMatch s = false → emailBlock pi = .ok (dictSet pi "email" (.str ""))) ∧
    (s = "" → emailBlock pi = .ok pi) ∧
    emailMatch "a@b.com" = true ∧ emailMatch "not-an-email" = false := by
  refine ⟨emailMatch_iff s, ?_, ?_, ?_, by decide, by decide⟩
  · intro hm
    rw [emailBlock, subscriptD, h]
    show (if (PyVal.str s).truthy = true then _ else _) = _
    by_cases ht : (PyVal.str s).truthy = true
    · rw [if_pos ht]
      show (if emailMatch s = true then _ else _) = _
      rw [if_pos hm]
      rfl
    · rw [if_neg ht]
      rfl
  · intro hs hm
    have hne : s.data ≠ [] := by
      intro hdata
      exact hs (by cases s; simp_all)
    have ht : (PyVal.str s).truthy = true := by
      show (!s.data.isEmpty) = true
      rw [List.isEmpty_eq_false.mpr hne]
      rfl
    rw [emailBlock, subscriptD, h]
    show (if (PyVal.str s).truthy = true then _ else _) = _
    rw [if_pos ht]
    show (if emailMatch s = true then _ else _) = _
    rw [if_neg (by simp [hm])]
    rfl
  · intro hs
    subst hs
    rw [emailBlock, subscriptD, h]
    rfl

/-- Witness for the amended C6 at a concrete record. -/
theorem wit_C6 :
    (emailMatch "a@b.com" = true ↔ EmailPrefixShape "a@b.com") ∧
    emailBlock [("email", .str "a@b.com")] = .ok [("email", .str "a@b.com")] ∧
    emailBlock [("email", .str "not-an-email")] =
      .ok (dictSet [("email", .str "not-an-email")] "email" (.str "")) := by
  have h1 := claim_C6_email_normalization_amended [("email", .str "a@b.com")] "a@b.com" rfl
  have h2 := claim_C6_email_normalization_amended
    [("email", .str "not-an-email")] "not-an-email" rfl
  exact ⟨h1.1, h1.2.1 (by decide), h2.2.2.1 (by decide) (by decide)⟩

/-! ## Dictionary lemmas for the normalizer claims -/

/-- Setting a key makes it readable. -/
theorem dictGet_dictSet_self (d : PyDict) (k : String) (v : PyVal) :
    dictGet (dictSet d k v) k = some v := by
  induction d with
  | nil => simp [dictSet, dictGet]
  | cons p t ih =>
      rcases p with ⟨k0, v0⟩
      by_cases h : k0 = k
      · simp [dictSet, dictGet, h]
      · simp [dictSet, dictGet, h, ih]

/-- Setting a key leaves other keys untouched. -/
theorem dictGet_dictSet_ne (d : PyDict) (k k' : String) (v : PyVal) (h : k' ≠ k) :
    dictGet (dictSet d k v) k' = dictGet d k' := by
  induction d with
  | nil => simp [dictSet, dictGet, Ne.symm h]
  | cons p t ih =>
      rcases p with ⟨k0, v0⟩
      by_cases h0 : k0 = k
      · subst h0
        simp [dictSet, dictGet, Ne.symm h]
      · simp only [dictSet, if_neg h0]
        by_cases h1 : k0 = k'
        · simp [dictGet, h1]
        · simp [dictGet, h1, ih]

/-- Writing back the value already stored is a no-op. -/
theorem dictSet_self (d : PyDict) (k : String) (v : PyVal)
    (h : dictGet d k = some v) : dictSet d k v = d := by
  induction d with
  | nil => cases h
  | cons p t ih =>
      rcases p with ⟨k0, v0⟩
      by_cases h0 : k0 = k
      · subst h0
        rw [dictGet, if_pos rfl] at h
        rcases Option.some.inj h with rfl
        simp [dictSet]
      · rw [dictGet, if_neg h0] at h
        simp [dictSet, h0, ih h]

/-- Overwriting a just-set key collapses to one write. -/
theorem dictSet_dictSet (d : PyDict) (k : String) (v w : PyVal) :
    dictSet (dictSet d k v) k w = dictSet d k w := by
  induction d with
  | nil => simp [dictSet]
  | cons p t ih =>
      rcases p with ⟨k0, v0⟩
      by_cases h : k0 = k
      · simp [dictSet, h]
      · simp [dictSet, h, ih]

/-- Appending a fresh binding leaves other keys untouched. -/
theorem dictGet_append_ne (d : PyDict) (k k' : String) (v : PyVal) (h : k' ≠ k) :
    dictGet (d ++ [(k, v)]) k' = dictGet d k' := by
  induction d with
  | nil => simp [dictGet, Ne.symm h]
  | cons p t ih =>
      rcases p with ⟨k0, v0⟩
      by_cases h0 : k0 = k'
      · simp [dictGet, h0]
      · simp [dictGet, h0, ih]

/-- Appending a binding for an absent key makes it readable. -/
theorem dictGet_append_self (d : PyDict) (k : String) (v : PyVal)
    (h : dictGet d k = Option.none) : dictGet (d ++ [(k, v)]) k = some v := by
  induction d with
  | nil => simp [dictGet]
  | cons p t ih =>
      rcases p with ⟨k0, v0⟩
      by_cases h0 : k0 = k
      · rw [dictGet, if_pos h0] at h
        cases h
      · rw [dictGet, if_neg h0] at h
        simp only [List.cons_append, dictGet, if_neg h0]
        exact ih h

/-- Python `setdefault` on a present key returns the stored value and the dict. -/
theorem setdefaultD_of_present (d : PyDict) (k : String) (v v' : PyVal)
    (h : dictGet d k = some v') : setdefaultD d k v = (v', d) := by
  rw [setdefaultD, h]

/-- Python `setdefault` on an absent key appends the default. -/
theorem setdefaultD_of_absent (d : PyDict) (k : String) (v : PyVal)
    (h : dictGet d k = Option.none) : setdefaultD d k v = (v, d ++ [(k, v)]) := by
  rw [setdefaultD, h]

/-- After `setdefault`, the key reads back the returned value. -/
theorem dictGet_setdefaultD_self (d : PyDict) (k : String) (v : PyVal) :
    dictGet (setdefaultD d k v).2 k = some (setdefaultD d k v).1 := by
  rcases h : dictGet d k with _ | w
  · rw [setdefaultD_of_absent d k v h]
    exact dictGet_append_self d k v h
  · rw [setdefaultD_of_present d k v w h]
    exact h

/-- Python `setdefault` leaves other keys untouched. -/
theorem dictGet_setdefaultD_ne (d : PyDict) (k k' : String) (v : PyVal)
    (h : k' ≠ k) : dictGet (setdefaultD d k v).2 k' = dictGet d k' := by
  rcases h0 : dictGet d k with _ | w
  · rw [setdefaultD_of_absent d k v h0]
    exact dictGet_append_ne d k k' v h
  · rw [setdefaultD_of_present d k v w h0]

/-- Python `setdefault` preserves key presence. -/
theorem isSome_setdefaultD (d : PyDict) (k k' : String) (v : PyVal)
    (h : (dictGet d k').isSome) : (dictGet (setdefaultD d k v).2 k').isSome := by
  by_cases hk : k' = k
  · subst hk
    rw [dictGet_setdefaultD_self]
    rfl
  · rw [dictGet_setdefaultD_ne d k k' v hk]
    exact h

/-- Defaulting fields over a dict that already has them is a no-op. -/
theorem applyDefaults_id (fields : List String) (v : PyVal) (d : PyDict)
    (h : ∀ f ∈ fields, (dictGet d f).isSome) : applyDefaults fields v d = d := by
  induction fields with
  | nil => rfl
  | cons f fs ih =>
      have hf := h f (by simp)
      rcases hw : dictGet d f with _ | w
      · rw [hw] at hf
        cases hf
      · show applyDefaults fs v (setdefaultD d f v).2 = d
        rw [setdefaultD_of_present d f v w hw]
        exact ih (fun g hg => h g (by simp [hg]))

/-- Defaulting fields does not touch keys outside the field list. -/
theorem dictGet_applyDefaults_not_mem (fields : List String) (v : PyVal)
    (d : PyDict) (f : String) (h : f ∉ fields) :
    dictGet (applyDefaults fields v d) f = dictGet d f := by
  induction fields generalizing d with
  | nil => rfl
  | cons g fs ih =>
      show dictGet (applyDefaults fs v (setdefaultD d g v).2) f = _
      rw [ih (setdefaultD d g v).2 (fun hf => h (by simp [hf])),
        dictGet_setdefaultD_ne d g f v (fun hf => h (by simp [hf]))]

/-- Defaulting fields gives each listed key its old value, or the default. -/
theorem dictGet_applyDefaults_mem (fields : List String) (v : PyVal)
    (d : PyDict) (f : String) (h : f ∈ fields) :
    dictGet (applyDefaults fields v d) f = some ((dictGet d f).getD v) := by
  induction fields generalizing d with
  | nil => cases h
  | cons g fs ih =>
      show dictGet (applyDefaults fs v (setdefaultD d g v).2) f = _
      by_cases hfg : f = g
      · subst hfg
        have hself : dictGet (setdefaultD d f v).2 f = some ((dictGet d f).getD v) := by
          rcases hw : dictGet d f with _ | w
          · rw [setdefaultD_of_absent d f v hw, dictGet_append_self d f v hw]
            rfl
          · rw [setdefaultD_of_present d f v w hw]
            exact hw
        by_cases hmem : f ∈ fs
        · rw [ih (setdefaultD d f v).2 hmem, hself]
          rfl
        · rw [dictGet_applyDefaults_not_mem fs v _ f hmem, hself]
      · have hmem : f ∈ fs := by
          rcases List.mem_cons.mp h with h1 | h1
          · exact absurd h1 hfg
          · exact h1
        rw [ih (setdefaultD d g v).2 hmem,
          dictGet_setdefaultD_ne d g f v hfg]

/-! ## Normalizer block lemmas -/

/-- Binding a successful `Except` computation just applies the
continuation. -/
theorem except_bind_ok {α β : Type} (a : α) (f : α → Except PyErr β) :
    ((Except.ok a : Except PyErr α) >>= f) = f a := rfl

/-- A non-empty string value is truthy. -/
theorem truthy_str_of_ne (s : String) (hs : s ≠ "") :
    (PyVal.str s).truthy = true := by
  have hne : s.data ≠ [] := by
    intro hdata
    exact hs (by cases s; simp_all)
  show (!s.data.isEmpty) = true
  rw [List.isEmpty_eq_false.mpr hne]
  rfl

/-- What the email block does to a string-valued email field. -/
theorem emailBlock_eq (pi : PyDict) (s : String)
    (h : dictGet pi "email" = some (.str s)) :
    emailBlock pi = .ok (if s ≠ "" ∧ emailMatch s = false
      then dictSet pi "email" (.str "") else pi) := by
  have hsub : subscriptD pi "email" = .ok (.str s) := by rw [subscriptD, h]
  rw [emailBlock, hsub, except_bind_ok]
  by_cases hs : s = ""
  · subst hs
    rw [if_neg (by decide)]
    rw [if_neg (by simp)]
    rfl
  · rw [if_pos (truthy_str_of_ne s hs)]
    show (if emailMatch s = true then pure pi
      else pure (dictSet pi "email" (.str ""))) = _
    by_cases hm : emailMatch s = true
    · rw [if_pos hm, if_neg (by simp [hm])]
      rfl
    · rw [if_neg hm, if_pos ⟨hs, by simpa using hm⟩]
      rfl

/-- What the phone block does to a string-valued phone field. -/
theorem phoneBlock_eq (pi : PyDict) (s : String)
    (h : dictGet pi "phone" = some (.str s)) :
    phoneBlock pi = .ok (if s = "" then pi
      else if isTenDigits (cleanPhone s) = true then
        dictSet pi "phone" (.str (cleanPhone s))
      else dictSet pi "phone" (.str "")) := by
  have hsub : subscriptD pi "phone" = .ok (.str s) := by rw [subscriptD, h]
  rw [phoneBlock, hsub, except_bind_ok]
  by_cases hs : s = ""
  · subst hs
    rw [if_neg (by decide), if_pos rfl]
    rfl
  · rw [if_pos (truthy_str_of_ne s hs)]
    show (if isTenDigits (cleanPhone s) = true then
        pure (dictSet pi "phone" (.str (cleanPhone s)))
      else pure (dictSet pi "phone" (.str ""))) = _
    rw [if_neg hs]
    by_cases hd : isTenDigits (cleanPhone s) = true
    · rw [if_pos hd, if_pos hd]
      rfl
    · rw [if_neg hd, if_neg hd]
      rfl

/-- What the date-of-birth block does to a string-valued field. -/
theorem dobBlock_eq (pi : PyDict) (s : String)
    (h : dictGet pi "date_of_birth" = some (.str s)) :
    dobBlock pi = .ok (if s ≠ "" ∧ dobMatch s = false
      then dictSet pi "date_of_birth" (.str "") else pi) := by
  have hsub : subscriptD pi "date_of_birth" = .ok (.str s) := by rw [subscriptD, h]
  rw [dobBlock, hsub, except_bind_ok]
  by_cases hs : s = ""
  · subst hs
    rw [if_neg (by decide), if_neg (by simp)]
    rfl
  · rw [if_pos (truthy_str_of_ne s hs)]
    show (if dobMatch s = true then pure pi
      else pure (dictSet pi "date_of_birth" (.str ""))) = _
    by_cases hm : dobMatch s = true
    · rw [if_pos hm, if_neg (by simp [hm])]
      rfl
    · rw [if_neg hm, if_pos ⟨hs, by simpa using hm⟩]
      rfl

/-- Python `startswith` as a decomposition. -/
theorem pyStartsWith_iff (s p : String) :
    pyStartsWith s p = true ↔ ∃ r, s.data = p.data ++ r := by
  rw [pyStartsWith, List.isPrefixOf_iff_prefix]
  constructor
  · rintro ⟨r, hr⟩
    exact ⟨r, hr.symm⟩
  · rintro ⟨r, hr⟩
    exact ⟨r, hr.symm⟩

/-- Stripping whitespace from an `http`-prefixed string keeps the prefix
(and in particular keeps the string non-empty). -/
theorem pyStrip_http (s : String) (h : pyStartsWith s "http" = true) :
    pyStartsWith (pyStrip s) "http" = true ∧ pyStrip s ≠ "" ∧ s ≠ "" := by
  rcases (pyStartsWith_iff s "http").mp h with ⟨r, hr⟩
  have hs : s ≠ "" := by
    intro he
    subst he
    simp at hr
  have hdata : (pyStrip s).data =
      ((('h' :: 't' :: 't' :: 'p' :: r).dropWhile pyIsSpace).reverse.dropWhile
        pyIsSpace).reverse := by
    show ((s.data.dropWhile pyIsSpace).reverse.dropWhile pyIsSpace).reverse = _
    rw [hr]
    rfl
  rw [List.dropWhile_cons_of_neg (by decide)] at hdata
  have hrev : ('h' :: 't' :: 't' :: 'p' :: r).reverse =
      r.reverse ++ ['p', 't', 't', 'h'] := by
    simp
  rw [hrev, List.dropWhile_append] at hdata
  by_cases hcase : (r.reverse.dropWhile pyIsSpace).isEmpty = true
  · rw [if_pos hcase] at hdata
    rw [List.dropWhile_cons_of_neg (by decide)] at hdata
    have hfin : (pyStrip s).data = ['h', 't', 't', 'p'] := by
      rw [hdata]
      rfl
    refine ⟨?_, ?_, hs⟩
    · rw [pyStartsWith, hfin]
      rfl
    · intro he
      rw [he] at hfin
      cases hfin
  · rw [if_neg hcase] at hdata
    have hfin : (pyStrip s).data =
        'h' :: 't' :: 't' :: 'p' :: (r.reverse.dropWhile pyIsSpace).reverse := by
      rw [hdata]
      simp
    refine ⟨?_, ?_, hs⟩
    · rw [pyStartsWith, hfin]
      exact (List.isPrefixOf_iff_prefix).mpr ⟨_, rfl⟩
    · intro he
      rw [he] at hfin
      cases hfin

/-- Binding a pure `Except` value applies the continuation. -/
theorem except_pure_bind {α β : Type} (a : α) (f : α → Except PyErr β) :
    ((pure a : Except PyErr α) >>= f) = f a := rfl

/-- Stripping the empty string gives the empty string. -/
theorem pyStrip_empty : pyStrip "" = "" := rfl

/-- On a string-valued field the link repair runs assignment then
finalization on the stripped value. -/
theorem fixLinkField_eq (pi : PyDict) (field linkVal : String) (s : String)
    (h : dictGet pi field = some (.str s)) :
    fixLinkField pi field linkVal =
      linkFinalize (linkAssign pi field linkVal (pyStrip s)) field := by
  rw [fixLinkField, h]
  rfl

/-- Finalization keeps a truthily-valued field unchanged. -/
theorem linkFinalize_truthy (pi : PyDict) (field : String) (t : String)
    (h : dictGet pi field = some (.str t)) (ht : t ≠ "") :
    linkFinalize pi field = .ok pi := by
  have hsub : subscriptD pi field = .ok (.str t) := by rw [subscriptD, h]
  rw [linkFinalize, hsub, except_bind_ok, if_pos (truthy_str_of_ne t ht)]
  rfl

/-- Finalization rewrites a falsy (empty-string) field to the empty string. -/
theorem linkFinalize_empty (pi : PyDict) (field : String)
    (h : dictGet pi field = some (.str "")) :
    linkFinalize pi field = .ok (dictSet pi field (.str "")) := by
  have hsub : subscriptD pi field = .ok (.str "") := by rw [subscriptD, h]
  rw [linkFinalize, hsub, except_bind_ok, if_neg (by decide)]
  rfl

/-- The link block leaves the field unchanged when the stored value is
empty with no scraped fallback, or already `http`-prefixed. -/
theorem fixLinkField_id (pi : PyDict) (field linkVal : String) (s : String)
    (h : dictGet pi field = some (.str s))
    (hcase : (s = "" ∧ linkVal = "") ∨ pyStartsWith s "http" = true) :
    fixLinkField pi field linkVal = .ok pi := by
  rw [fixLinkField_eq pi field linkVal s h]
  rcases hcase with ⟨hs, hl⟩ | hhttp
  · subst hs
    subst hl
    rw [pyStrip_empty]
    rw [linkAssign, if_neg (by simp), if_neg (by simp)]
    rw [linkFinalize_empty pi field h, dictSet_self pi field (.str "") h]
  · rcases pyStrip_http s hhttp with ⟨hsp, hne, hsne⟩
    rw [linkAssign, if_neg (by simp [hne]), if_neg (by simp [hsp])]
    exact linkFinalize_truthy pi field s h hsne

/-- The conditional assignment either leaves the section alone or writes a
string into the field. -/
theorem linkAssign_cases (pi : PyDict) (field linkVal val : String) :
    linkAssign pi field linkVal val = pi ∨
    ∃ x, linkAssign pi field linkVal val = dictSet pi field (.str x) := by
  rw [linkAssign]
  split
  · exact Or.inr ⟨linkVal, rfl⟩
  · split
    · split
      · exact Or.inr ⟨_, rfl⟩
      · split
        · exact Or.inr ⟨_, rfl⟩
        · exact Or.inl rfl
    · exact Or.inl rfl

/-- On a string-valued field the link repair succeeds and stores a string. -/
theorem fixLinkField_ok (pi : PyDict) (field linkVal : String) (s : String)
    (h : dictGet pi field = some (.str s)) :
    ∃ s', fixLinkField pi field linkVal = .ok (dictSet pi field (.str s')) := by
  rw [fixLinkField_eq pi field linkVal s h]
  rcases linkAssign_cases pi field linkVal (pyStrip s) with hA | ⟨x, hA⟩
  · rw [hA]
    by_cases hs : s = ""
    · subst hs
      exact ⟨"", by rw [linkFinalize_empty pi field h]⟩
    · exact ⟨s, by
        rw [linkFinalize_truthy pi field s h hs, dictSet_self pi field (.str s) h]⟩
  · rw [hA]
    by_cases hx : x = ""
    · subst hx
      refine ⟨"", ?_⟩
      rw [linkFinalize_empty _ field (dictGet_dictSet_self pi field (.str "")),
        dictSet_dictSet]
    · refine ⟨x, ?_⟩
      exact linkFinalize_truthy _ field x (dictGet_dictSet_self pi field (.str x)) hx

/-- Writing a string into a personal-information field preserves
all-string-ness. -/
theorem PiAllStr_dictSet (pi : PyDict) (f : String) (s : String)
    (h : PiAllStr pi) : PiAllStr (dictSet pi f (.str s)) := by
  intro g hg
  by_cases hgf : g = f
  · subst hgf
    exact ⟨s, dictGet_dictSet_self pi g (.str s)⟩
  · rcases h g hg with ⟨t, ht⟩
    exact ⟨t, by rw [dictGet_dictSet_ne pi f g (.str s) hgf, ht]⟩

/-- Defaulting the seven leaf fields over a string-valued section makes
every field a present string. -/
theorem applyDefaults_PiAllStr (pi : PyDict) (h : piFieldsAreStrings pi) :
    PiAllStr (applyDefaults piFields (.str "") pi) := by
  intro f hf
  rw [dictGet_applyDefaults_mem piFields (.str "") pi f hf]
  rcases hw : dictGet pi f with _ | w
  · exact ⟨"", rfl⟩
  · rcases h f hf w hw with ⟨s, rfl⟩
    exact ⟨s, rfl⟩

/-- The email block succeeds on an all-string section and keeps it
all-string. -/
theorem emailBlock_allStr (pi : PyDict) (h : PiAllStr pi) :
    ∃ pi', emailBlock pi = .ok pi' ∧ PiAllStr pi' := by
  rcases h "email" (by simp [piFields]) with ⟨s, hs⟩
  rw [emailBlock_eq pi s hs]
  by_cases hc : s ≠ "" ∧ emailMatch s = false
  · rw [if_pos hc]
    exact ⟨_, rfl, PiAllStr_dictSet pi "email" "" h⟩
  · rw [if_neg hc]
    exact ⟨pi, rfl, h⟩

/-- The phone block succeeds on an all-string section and keeps it
all-string. -/
theorem phoneBlock_allStr (pi : PyDict) (h : PiAllStr pi) :
    ∃ pi', phoneBlock pi = .ok pi' ∧ PiAllStr pi' := by
  rcases h "phone" (by simp [piFields]) with ⟨s, hs⟩
  rw [phoneBlock_eq pi s hs]
  by_cases h1 : s = ""
  · rw [if_pos h1]
    exact ⟨pi, rfl, h⟩
  · rw [if_neg h1]
    by_cases h2 : isTenDigits (cleanPhone s) = true
    · rw [if_pos h2]
      exact ⟨_, rfl, PiAllStr_dictSet pi "phone" (cleanPhone s) h⟩
    · rw [if_neg h2]
      exact ⟨_, rfl, PiAllStr_dictSet pi "phone" "" h⟩

/-- The date-of-birth block succeeds on an all-string section and keeps it
all-string. -/
theorem dobBlock_allStr (pi : PyDict) (h : PiAllStr pi) :
    ∃ pi', dobBlock pi = .ok pi' ∧ PiAllStr pi' := by
  rcases h "date_of_birth" (by simp [piFields]) with ⟨s, hs⟩
  rw [dobBlock_eq pi s hs]
  by_cases hc : s ≠ "" ∧ dobMatch s = false
  · rw [if_pos hc]
    exact ⟨_, rfl, PiAllStr_dictSet pi "date_of_birth" "" h⟩
  · rw [if_neg hc]
    exact ⟨pi, rfl, h⟩

/-- The link repair succeeds on an all-string section and keeps it
all-string. -/
theorem fixLinkField_allStr (pi : PyDict) (field linkVal : String)
    (hf : field ∈ piFields) (h : PiAllStr pi) :
    ∃ pi', fixLinkField pi field linkVal = .ok pi' ∧ PiAllStr pi' := by
  rcases h field hf with ⟨s, hs⟩
  rcases fixLinkField_ok pi field linkVal s hs with ⟨s', hs'⟩
  exact ⟨_, hs', PiAllStr_dictSet pi field s' h⟩

/-! ## Stage lemmas for the normalizer -/

/-- A digit character is not a plus sign. -/
theorem isDigit_ne_plus (c : Char) (h : c.isDigit = true) : c ≠ '+' := by
  intro he
  subst he
  cases h

/-- A digit character is none of the stripped punctuation characters. -/
theorem isDigit_not_phonePunct (c : Char) (h : c.isDigit = true) :
    phonePunct c = false := by
  rcases hc : phonePunct c with _ | _
  · rfl
  · exfalso
    rw [phonePunct] at hc
    rcases Bool.or_eq_true_iff.mp hc with h1 | h1
    · rcases Bool.or_eq_true_iff.mp h1 with h2 | h2
      · rcases Bool.or_eq_true_iff.mp h2 with h3 | h3 <;>
          { have := of_decide_eq_true h3; subst this; cases h }
      · have := of_decide_eq_true h2; subst this; cases h
    · have := of_decide_eq_true h1; subst this; cases h

/-- A ten-digit string consists of digits. -/
theorem isTenDigits_all (s : String) (h : isTenDigits s = true) :
    ∀ c ∈ s.data, c.isDigit = true := by
  rw [isTenDigits, Bool.and_eq_true_iff] at h
  exact fun c hc => List.all_eq_true.mp h.2 c hc

/-- A ten-digit string is non-empty. -/
theorem isTenDigits_ne_empty (s : String) (h : isTenDigits s = true) : s ≠ "" := by
  rw [isTenDigits, Bool.and_eq_true_iff] at h
  intro he
  subst he
  simp at h

/-- Cleaning an all-digit string is a no-op. -/
theorem cleanPhone_of_digits (s : String) (h : ∀ c ∈ s.data, c.isDigit = true) :
    cleanPhone s = s := by
  have hfil : s.data.filter (fun c => !phonePunct c) = s.data :=
    List.filter_eq_self.mpr (fun c hc => by rw [isDigit_not_phonePunct c (h c hc)]; rfl)
  have hpre : (['+', '9', '1'].isPrefixOf (s.data)) = false := by
    rcases hd : s.data with _ | ⟨c, t⟩
    · rfl
    · show (('+' == c) && _) = false
      have : c ≠ '+' := isDigit_ne_plus c (h c (by rw [hd]; simp))
      rw [Bool.and_eq_false_iff]
      exact Or.inl (by simpa using fun hh : '+' = c => this hh.symm)
  show (⟨stripPlus91 (s.data.filter (fun c => !phonePunct c))⟩ : String) = s
  rw [hfil, stripPlus91, if_neg (by simp [hpre])]

/-- Unfolding the personal-information stage once the section dict is
known. -/
theorem stagePI_eq (d : PyDict) (L : Links) (pi0 : PyDict) (d1 : PyDict)
    (hsd : setdefaultD d "personal_information" (.dict []) = (.dict pi0, d1)) :
    stagePI d L =
      (emailBlock (applyDefaults piFields (.str "") pi0) >>= fun pi2 =>
       phoneBlock pi2 >>= fun pi3 =>
       dobBlock pi3 >>= fun pi4 =>
       fixLinkField pi4 "linkedin" (L.getField "linkedin") >>= fun pi5 =>
       fixLinkField pi5 "github" (L.getField "github") >>= fun pi6 =>
       pure (dictSet d1 "personal_information" (.dict pi6))) := by
  rw [stagePI, hsd]
  rfl

/-- The personal-information stage succeeds whenever the section, if
present, is a dict with string leaves; afterwards the section holds all
seven fields as strings and every other key is untouched. -/
theorem stagePI_ok (d : PyDict) (L : Links)
    (hd : ∀ pv, dictGet d "personal_information" = some pv →
      ∃ pi0, pv = .dict pi0 ∧ piFieldsAreStrings pi0) :
    ∃ d1 pi1, stagePI d L = .ok d1 ∧
      dictGet d1 "personal_information" = some (.dict pi1) ∧ PiAllStr pi1 ∧
      (∀ k, k ≠ "personal_information" → dictGet d1 k = dictGet d k) := by
  have main : ∀ (pi0 dA : PyDict),
      setdefaultD d "personal_information" (.dict []) = (.dict pi0, dA) →
      piFieldsAreStrings pi0 →
      (∀ k, k ≠ "personal_information" → dictGet dA k = dictGet d k) →
      ∃ d1 pi1, stagePI d L = .ok d1 ∧
        dictGet d1 "personal_information" = some (.dict pi1) ∧ PiAllStr pi1 ∧
        (∀ k, k ≠ "personal_information" → dictGet d1 k = dictGet d k) := by
    intro pi0 dA hsd hstr hpres
    rw [stagePI_eq d L pi0 dA hsd]
    have hA := applyDefaults_PiAllStr pi0 hstr
    rcases emailBlock_allStr _ hA with ⟨piB, heB, hB⟩
    rw [heB, except_bind_ok]
    rcases phoneBlock_allStr _ hB with ⟨piC, heC, hC⟩
    rw [heC, except_bind_ok]
    rcases dobBlock_allStr _ hC with ⟨piD, heD, hD⟩
    rw [heD, except_bind_ok]
    rcases fixLinkField_allStr _ "linkedin" (L.getField "linkedin")
      (by simp [piFields]) hD with ⟨piE, heE, hE⟩
    rw [heE, except_bind_ok]
    rcases fixLinkField_allStr _ "github" (L.getField "github")
      (by simp [piFields]) hE with ⟨piF, heF, hF⟩
    rw [heF, except_bind_ok]
    refine ⟨dictSet dA "personal_information" (.dict piF), piF, rfl,
      dictGet_dictSet_self dA "personal_information" (.dict piF), hF, ?_⟩
    intro k hk
    rw [dictGet_dictSet_ne dA "personal_information" k (.dict piF) hk]
    exact hpres k hk
  rcases hget : dictGet d "personal_information" with _ | pv
  · exact main [] (d ++ [("personal_information", .dict [])])
      (by rw [setdefaultD_of_absent d _ _ hget])
      (fun f hf w hw => by cases hw)
      (fun k hk => dictGet_append_ne d _ k _ hk)
  · rcases hd pv hget with ⟨pi0, rfl, hstr⟩
    exact main pi0 d (setdefaultD_of_present d _ _ _ hget) hstr (fun k _ => rfl)

/-- The personal-information stage is the identity on an already-normalized
record (section present with the seven fields; contact fields valid or
empty; links empty-with-empty-scrape or `http`-prefixed). -/
theorem stagePI_id (d : PyDict) (L : Links) (pi : PyDict)
    (hget : dictGet d "personal_information" = some (.dict pi))
    (hkeys : ∀ f ∈ piFields, (dictGet pi f).isSome)
    (he : ∃ e, dictGet pi "email" = some (.str e) ∧ (e = "" ∨ emailMatch e = true))
    (hp : ∃ p, dictGet pi "phone" = some (.str p) ∧ (p = "" ∨ isTenDigits p = true))
    (hb : ∃ b, dictGet pi "date_of_birth" = some (.str b) ∧ (b = "" ∨ dobMatch b = true))
    (hli : ∃ v, dictGet pi "linkedin" = some (.str v) ∧
      ((v = "" ∧ L.linkedin = "") ∨ pyStartsWith v "http" = true))
    (hgh : ∃ v, dictGet pi "github" = some (.str v) ∧
      ((v = "" ∧ L.github = "") ∨ pyStartsWith v "http" = true)) :
    stagePI d L = .ok d := by
  rw [stagePI_eq d L pi d (setdefaultD_of_present d _ _ _ hget)]
  rw [applyDefaults_id piFields (.str "") pi hkeys]
  have heB : emailBlock pi = .ok pi := by
    rcases he with ⟨e, hg, hcase⟩
    rw [emailBlock_eq pi e hg]
    rcases hcase with h0 | hm
    · rw [if_neg (fun hc => hc.1 h0)]
    · rw [if_neg (fun hc => by rw [hm] at hc; exact absurd hc.2 (by simp))]
  rw [heB, except_bind_ok]
  have hpB : phoneBlock pi = .ok pi := by
    rcases hp with ⟨p, hg, hcase⟩
    rw [phoneBlock_eq pi p hg]
    rcases hcase with h0 | hten
    · rw [if_pos h0]
    · rw [if_neg (isTenDigits_ne_empty p hten),
        cleanPhone_of_digits p (isTenDigits_all p hten), if_pos hten,
        dictSet_self pi "phone" (.str p) hg]
  rw [hpB, except_bind_ok]
  have hbB : dobBlock pi = .ok pi := by
    rcases hb with ⟨b, hg, hcase⟩
    rw [dobBlock_eq pi b hg]
    rcases hcase with h0 | hm
    · rw [if_neg (fun hc => hc.1 h0)]
    · rw [if_neg (fun hc => by rw [hm] at hc; exact absurd hc.2 (by simp))]
  rw [hbB, except_bind_ok]
  rcases hli with ⟨v, hg, hcase⟩
  rw [fixLinkField_id pi "linkedin" (L.getField "linkedin") v hg hcase,
    except_bind_ok]
  rcases hgh with ⟨w, hgw, hcasew⟩
  rw [fixLinkField_id pi "github" (L.getField "github") w hgw hcasew,
    except_bind_ok]
  show pure (dictSet d "personal_information" (.dict pi)) = _
  rw [dictSet_self d "personal_information" (.dict pi) hget]
  rfl

/-- Python `setdefault` of a present key leaves the dict unchanged. -/
theorem setdefaultD_snd_present (d : PyDict) (k : String) (v : PyVal)
    (h : (dictGet d k).isSome) : (setdefaultD d k v).2 = d := by
  rcases hw : dictGet d k with _ | w
  · rw [hw] at h
    cases h
  · rw [setdefaultD_of_present d k v w hw]

/-- Python `setdefault` makes its own key present. -/
theorem isSome_setdefaultD_self (d : PyDict) (k : String) (v : PyVal) :
    (dictGet (setdefaultD d k v).2 k).isSome := by
  rw [dictGet_setdefaultD_self]
  rfl

/-- Defaulting a field list preserves key presence. -/
theorem isSome_applyDefaults (fields : List String) (v : PyVal) (d : PyDict)
    (k : String) (h : (dictGet d k).isSome) :
    (dictGet (applyDefaults fields v d) k).isSome := by
  by_cases hk : k ∈ fields
  · rw [dictGet_applyDefaults_mem fields v d k hk]
    rfl
  · rw [dictGet_applyDefaults_not_mem fields v d k hk]
    exact h

/-- The summary normalization, unfolded on a dict. -/
theorem normalizeSummary_dict_eq (sm : PyDict) :
    normalizeSummary (.dict sm) = .ok (.dict
      ((setdefaultD ((setdefaultD ((setdefaultD sm "summary" (.str "")).2)
        "skills" (.list [])).2) "languages" (.list [])).2)) := rfl

/-- Summary normalization is the identity when the three keys are present. -/
theorem normalizeSummary_id (sm : PyDict)
    (h : ∀ f ∈ summaryFields, (dictGet sm f).isSome) :
    normalizeSummary (.dict sm) = .ok (.dict sm) := by
  rw [normalizeSummary_dict_eq,
    setdefaultD_snd_present sm "summary" _ (h "summary" (by simp [summaryFields])),
    setdefaultD_snd_present sm "skills" _ (h "skills" (by simp [summaryFields])),
    setdefaultD_snd_present sm "languages" _
      (h "languages" (by simp [summaryFields]))]

/-- Summary normalization yields a dict with the three keys present. -/
theorem normalizeSummary_keys (sm : PyDict) :
    ∃ sm', normalizeSummary (.dict sm) = .ok (.dict sm') ∧
      ∀ f ∈ summaryFields, (dictGet sm' f).isSome := by
  refine ⟨_, normalizeSummary_dict_eq sm, ?_⟩
  intro f hf
  have hf3 : f = "summary" ∨ f = "skills" ∨ f = "languages" := by
    simpa [summaryFields] using hf
  rcases hf3 with rfl | rfl | rfl
  · exact isSome_setdefaultD (setdefaultD _ "skills" _).2 "languages" _ _
      (isSome_setdefaultD (setdefaultD _ "summary" _).2 "skills" _ _
        (isSome_setdefaultD_self sm "summary" _))
  · exact isSome_setdefaultD (setdefaultD _ "skills" _).2 "languages" _ _
      (isSome_setdefaultD_self (setdefaultD _ "summary" _).2 "skills" _)
  · exact isSome_setdefaultD_self (setdefaultD _ "skills" _).2 "languages" _

/-- Unfolding the summary stage once the stored section is known. -/
theorem stageSummary_eq (d : PyDict) (v : PyVal) (d1 : PyDict)
    (hsd : setdefaultD d "professional_summary" (.dict []) = (v, d1)) :
    stageSummary d = (normalizeSummary v >>= fun s' =>
      pure (dictSet d1 "professional_summary" s')) := by
  rw [stageSummary, hsd]

/-- The summary stage is the identity on an already-normalized record. -/
theorem stageSummary_id (d : PyDict) (sm : PyDict)
    (hget : dictGet d "professional_summary" = some (.dict sm))
    (h : ∀ f ∈ summaryFields, (dictGet sm f).isSome) :
    stageSummary d = .ok d := by
  rw [stageSummary_eq d (.dict sm) d (setdefaultD_of_present d _ _ _ hget),
    normalizeSummary_id sm h, except_bind_ok]
  show pure (dictSet d "professional_summary" (.dict sm)) = _
  rw [dictSet_self d "professional_summary" (.dict sm) hget]
  rfl

/-- The summary stage succeeds whenever the section, if present, is a dict,
and afterwards the section is a dict with its three keys. -/
theorem stageSummary_ok (d : PyDict)
    (hd : ∀ pv, dictGet d "professional_summary" = some pv → ∃ sm, pv = .dict sm) :
    ∃ d1 sm1, stageSummary d = .ok d1 ∧
      dictGet d1 "professional_summary" = some (.dict sm1) ∧
      (∀ f ∈ summaryFields, (dictGet sm1 f).isSome) ∧
      (∀ k, k ≠ "professional_summary" → dictGet d1 k = dictGet d k) := by
  have main : ∀ (sm dA : PyDict),
      setdefaultD d "professional_summary" (.dict []) = (.dict sm, dA) →
      (∀ k, k ≠ "professional_summary" → dictGet dA k = dictGet d k) →
      ∃ d1 sm1, stageSummary d = .ok d1 ∧
        dictGet d1 "professional_summary" = some (.dict sm1) ∧
        (∀ f ∈ summaryFields, (dictGet sm1 f).isSome) ∧
        (∀ k, k ≠ "professional_summary" → dictGet d1 k = dictGet d k) := by
    intro sm dA hsd hpres
    rw [stageSummary_eq d (.dict sm) dA hsd]
    rcases normalizeSummary_keys sm with ⟨sm1, he, hk⟩
    rw [he, except_bind_ok]
    refine ⟨dictSet dA "professional_summary" (.dict sm1), sm1, rfl,
      dictGet_dictSet_self dA "professional_summary" (.dict sm1), hk, ?_⟩
    intro k hkk
    rw [dictGet_dictSet_ne dA "professional_summary" k (.dict sm1) hkk]
    exact hpres k hkk
  rcases hget : dictGet d "professional_summary" with _ | pv
  · exact main [] (d ++ [("professional_summary", .dict [])])
      (by rw [setdefaultD_of_absent d _ _ hget])
      (fun k hk => dictGet_append_ne d _ k _ hk)
  · rcases hd pv hget with ⟨sm, rfl⟩
    exact main sm d (setdefaultD_of_present d _ _ _ hget) (fun k _ => rfl)

/-- Mapping a pointwise-identity action over a list is the identity. -/
theorem exceptMapList_id (f : PyVal → Except PyErr PyVal) (xs : List PyVal)
    (h : ∀ x ∈ xs, f x = .ok x) : exceptMapList f xs = .ok xs := by
  induction xs with
  | nil => rfl
  | cons x t ih =>
      rw [exceptMapList, h x (by simp), except_bind_ok,
        ih (fun y hy => h y (by simp [hy])), except_bind_ok]

/-- Mapping a pointwise-successful action collects successful results. -/
theorem exceptMapList_all (f : PyVal → Except PyErr PyVal) (P : PyVal → Bool)
    (xs : List PyVal) (h : ∀ x ∈ xs, ∃ y, f x = .ok y ∧ P y = true) :
    ∃ ys, exceptMapList f xs = .ok ys ∧ ys.all P = true := by
  induction xs with
  | nil => exact ⟨[], rfl, rfl⟩
  | cons x t ih =>
      rcases h x (by simp) with ⟨y, hy, hPy⟩
      rcases ih (fun z hz => h z (by simp [hz])) with ⟨ys, hys, hPys⟩
      refine ⟨y :: ys, ?_, by simp [hPy, hPys]⟩
      rw [exceptMapList, hy, except_bind_ok, hys, except_bind_ok]

/-- List-section normalization is the identity when each entry is fixed. -/
theorem normalizeSectionList_id (f : PyVal → Except PyErr PyVal)
    (xs : List PyVal) (h : ∀ x ∈ xs, f x = .ok x) :
    normalizeSectionList f (.list xs) = .ok (.list xs) := by
  rw [normalizeSectionList, exceptMapList_id f xs h, except_bind_ok]

/-- List-section normalization collects successful per-entry results. -/
theorem normalizeSectionList_all (f : PyVal → Except PyErr PyVal)
    (P : PyVal → Bool) (xs : List PyVal)
    (h : ∀ x ∈ xs, ∃ y, f x = .ok y ∧ P y = true) :
    ∃ ys, normalizeSectionList f (.list xs) = .ok (.list ys) ∧ ys.all P = true := by
  rcases exceptMapList_all f P xs h with ⟨ys, hys, hPys⟩
  refine ⟨ys, ?_, hPys⟩
  rw [normalizeSectionList, hys, except_bind_ok]

/-- Entry defaulting is the identity when the fields are present. -/
theorem entryFieldDefaults_id (fields : List String) (e : PyDict)
    (h : ∀ fe ∈ fields, (dictGet e fe).isSome) :
    entryFieldDefaults fields (.dict e) = .ok (.dict e) := by
  rw [entryFieldDefaults, applyDefaults_id fields (.str "") e h]

/-- Entry defaulting succeeds on a dict and installs every field. -/
theorem entryFieldDefaults_keys (fields : List String) (e : PyDict) :
    ∃ e', entryFieldDefaults fields (.dict e) = .ok (.dict e') ∧
      entryHasKeys fields (.dict e') = true := by
  refine ⟨applyDefaults fields (.str "") e, rfl, ?_⟩
  show fields.all (fun f => (dictGet (applyDefaults fields (.str "") e) f).isSome) = true
  rw [List.all_eq_true]
  intro f hf
  rw [dictGet_applyDefaults_mem fields (.str "") e f hf]
  rfl

/-- The project pass, unfolded on a dict. -/
theorem normalizeProject_dict_eq (e : PyDict) :
    normalizeProject (.dict e) = .ok (.dict
      ((setdefaultD ((setdefaultD (applyDefaults projectFields2 (.str "")
          (applyDefaults projectFields1 (.str "") e))
        "key_activities" (.list [])).2) "certificate" certificateDefault).2)) := rfl

/-- The project pass is the identity when every project key is present. -/
theorem normalizeProject_id (e : PyDict)
    (h : ∀ fe ∈ projectAllFields, (dictGet e fe).isSome) :
    normalizeProject (.dict e) = .ok (.dict e) := by
  rw [normalizeProject_dict_eq,
    applyDefaults_id projectFields1 _ e
      (fun fe hf => h fe (by simp [projectAllFields, hf])),
    applyDefaults_id projectFields2 _ e
      (fun fe hf => h fe (by simp [projectAllFields, hf])),
    setdefaultD_snd_present e "key_activities" _
      (h "key_activities" (by simp [projectAllFields])),
    setdefaultD_snd_present e "certificate" _
      (h "certificate" (by simp [projectAllFields]))]

/-- The project pass succeeds on a dict and installs every project key. -/
theorem normalizeProject_keys (e : PyDict) :
    ∃ e', normalizeProject (.dict e) = .ok (.dict e') ∧
      entryHasKeys projectAllFields (.dict e') = true := by
  refine ⟨_, normalizeProject_dict_eq e, ?_⟩
  show projectAllFields.all (fun f => (dictGet _ f).isSome) = true
  rw [List.all_eq_true]
  intro f hf
  rcases List.mem_append.mp hf with hf12 | hftail
  · rcases List.mem_append.mp hf12 with hf1 | hf2
    · refine isSome_setdefaultD _ "certificate" f _
        (isSome_setdefaultD _ "key_activities" f _
          (isSome_applyDefaults projectFields2 _ _ f ?_))
      rw [dictGet_applyDefaults_mem projectFields1 (.str "") e f hf1]
      rfl
    · refine isSome_setdefaultD _ "certificate" f _
        (isSome_setdefaultD _ "key_activities" f _ ?_)
      rw [dictGet_applyDefaults_mem projectFields2 (.str "") _ f hf2]
      rfl
  · have hf2 : f = "key_activities" ∨ f = "certificate" := by simpa using hftail
    rcases hf2 with rfl | rfl
    · exact isSome_setdefaultD _ "certificate" "key_activities" _
        (isSome_setdefaultD_self _ "key_activities" _)
    · exact isSome_setdefaultD_self _ "certificate" _

/-- Unfolding a list-section stage once the stored value is known. -/
theorem stageSection_eq (key : String) (f : PyVal → Except PyErr PyVal)
    (d : PyDict) (v : PyVal) (d1 : PyDict)
    (hsd : setdefaultD d key (.list []) = (v, d1)) :
    stageSection key f d = (normalizeSectionList f v >>= fun v' =>
      pure (dictSet d1 key v')) := by
  rw [stageSection, hsd]

/-- A list-section stage is the identity when the stored list is fixed by
the per-entry pass. -/
theorem stageSection_id (key : String) (f : PyVal → Except PyErr PyVal)
    (d : PyDict) (xs : List PyVal)
    (hget : dictGet d key = some (.list xs))
    (h : ∀ x ∈ xs, f x = .ok x) : stageSection key f d = .ok d := by
  rw [stageSection_eq key f d (.list xs) d (setdefaultD_of_present d _ _ _ hget),
    normalizeSectionList_id f xs h, except_bind_ok]
  show pure (dictSet d key (.list xs)) = _
  rw [dictSet_self d key (.list xs) hget]
  rfl

/-- A list-section stage succeeds whenever the stored section, if present,
is a list of dicts, and afterwards every entry satisfies the per-entry
guarantee. -/
theorem stageSection_ok (key : String) (f : PyVal → Except PyErr PyVal)
    (P : PyVal → Bool) (d : PyDict)
    (hf : ∀ e : PyDict, ∃ y, f (.dict e) = .ok y ∧ P y = true)
    (hd : ∀ pv, dictGet d key = some pv →
      ∃ xs, pv = .list xs ∧ ∀ x ∈ xs, ∃ e, x = .dict e) :
    ∃ d1 ys, stageSection key f d = .ok d1 ∧
      dictGet d1 key = some (.list ys) ∧ ys.all P = true ∧
      (∀ k, k ≠ key → dictGet d1 k = dictGet d k) := by
  have main : ∀ (xs : List PyVal) (dA : PyDict),
      setdefaultD d key (.list []) = (.list xs, dA) →
      (∀ x ∈ xs, ∃ e, x = .dict e) →
      (∀ k, k ≠ key → dictGet dA k = dictGet d k) →
      ∃ d1 ys, stageSection key f d = .ok d1 ∧
        dictGet d1 key = some (.list ys) ∧ ys.all P = true ∧
        (∀ k, k ≠ key → dictGet d1 k = dictGet d k) := by
    intro xs dA hsd hdicts hpres
    rw [stageSection_eq key f d (.list xs) dA hsd]
    have hall : ∀ x ∈ xs, ∃ y, f x = .ok y ∧ P y = true := by
      intro x hx
      rcases hdicts x hx with ⟨e, rfl⟩
      exact hf e
    rcases normalizeSectionList_all f P xs hall with ⟨ys, hys, hPys⟩
    rw [hys, except_bind_ok]
    refine ⟨dictSet dA key (.list ys), ys, rfl,
      dictGet_dictSet_self dA key (.list ys), hPys, ?_⟩
    intro k hk
    rw [dictGet_dictSet_ne dA key k (.list ys) hk]
    exact hpres k hk
  rcases hget : dictGet d key with _ | pv
  · exact main [] (d ++ [(key, .list [])])
      (by rw [setdefaultD_of_absent d _ _ hget])
      (fun x hx => absurd hx (List.not_mem_nil x))
      (fun k hk => dictGet_append_ne d _ k _ hk)
  · rcases hd pv hget with ⟨xs, rfl, hdicts⟩
    exact main xs d (setdefaultD_of_present d _ _ _ hget) hdicts (fun k _ => rfl)

/-- The tail stage, unfolded. -/
theorem stageTail_eq (d : PyDict) :
    stageTail d = (setdefaultD ((setdefaultD ((setdefaultD d
      "relevant_coursework" (.list [])).2) "certifications" (.list [])).2)
      "extracurricular_hobbies" (.list [])).2 := rfl

/-- The tail stage is the identity when its three keys are present. -/
theorem stageTail_id (d : PyDict)
    (h1 : (dictGet d "relevant_coursework").isSome)
    (h2 : (dictGet d "certifications").isSome)
    (h3 : (dictGet d "extracurricular_hobbies").isSome) :
    stageTail d = d := by
  rw [stageTail_eq,
    setdefaultD_snd_present d "relevant_coursework" _ h1,
    setdefaultD_snd_present d "certifications" _ h2,
    setdefaultD_snd_present d "extracurricular_hobbies" _ h3]

/-- The tail stage installs its three keys. -/
theorem stageTail_keys (d : PyDict) :
    (dictGet (stageTail d) "relevant_coursework").isSome ∧
    (dictGet (stageTail d) "certifications").isSome ∧
    (dictGet (stageTail d) "extracurricular_hobbies").isSome := by
  rw [stageTail_eq]
  refine ⟨?_, ?_, ?_⟩
  · exact isSome_setdefaultD _ "extracurricular_hobbies" _ _
      (isSome_setdefaultD _ "certifications" _ _
        (isSome_setdefaultD_self d "relevant_coursework" _))
  · exact isSome_setdefaultD _ "extracurricular_hobbies" _ _
      (isSome_setdefaultD_self _ "certifications" _)
  · exact isSome_setdefaultD_self _ "extracurricular_hobbies" _

/-- The tail stage leaves other keys untouched. -/
theorem dictGet_stageTail_ne (d : PyDict) (k : String)
    (h1 : k ≠ "relevant_coursework") (h2 : k ≠ "certifications")
    (h3 : k ≠ "extracurricular_hobbies") :
    dictGet (stageTail d) k = dictGet d k := by
  rw [stageTail_eq,
    dictGet_setdefaultD_ne _ "extracurricular_hobbies" k _ h3,
    dictGet_setdefaultD_ne _ "certifications" k _ h2,
    dictGet_setdefaultD_ne _ "relevant_coursework" k _ h1]

/-! ## Claim C9: idempotence of the normalizer -/

/-- Counterexample to C9 as stated: the fully defaulted record satisfies the
claim's "already normalized" conditions (all keys present, contact fields
empty, links empty), yet re-running the pass with a non-empty scraped
LinkedIn link fills the empty field, changing the record. -/
theorem cx_C9_scraped_link_refills :
    claimNormalizedPre defaultRecord = true ∧
    Except.map linkedinOf
      (normalizeResume defaultRecord ⟨"https://linkedin.com/in/x", ""⟩) =
      .ok "https://linkedin.com/in/x" ∧
    linkedinOf defaultRecord = "" ∧
    normalizeResume defaultRecord ⟨"https://linkedin.com/in/x", ""⟩ ≠
      .ok defaultRecord := by
  refine ⟨by decide, rfl, rfl, ?_⟩
  intro h
  have h2 := congrArg (Except.map linkedinOf) h
  rw [show Except.map linkedinOf
      (normalizeResume defaultRecord ⟨"https://linkedin.com/in/x", ""⟩) =
      .ok "https://linkedin.com/in/x" from rfl] at h2
  have h3 : ("https://linkedin.com/in/x" : String) = "" :=
    Except.ok.inj h2
  exact absurd h3 (by decide)

/-- C9 (amended): the normalization pass is the identity on an
already-normalized record — every schema key present down to the entry
level, contact fields valid-format or empty, LinkedIn/GitHub either empty
or `http`-prefixed — PROVIDED the scraped-links input is empty for each
link field whose stored value is empty (a pending scraped link would be
merged in, and a non-`http` stored value would be rewritten, by a second
run). -/
theorem claim_C9_idempotent_amended (d : PyDict) (L : Links) (pi sm : PyDict)
    (xsEd xsXp xsPr : List PyVal)
    (hpi : dictGet d "personal_information" = some (.dict pi))
    (hpik : ∀ f ∈ piFields, (dictGet pi f).isSome)
    (he : ∃ e, dictGet pi "email" = some (.str e) ∧ (e = "" ∨ emailMatch e = true))
    (hp : ∃ p, dictGet pi "phone" = some (.str p) ∧ (p = "" ∨ isTenDigits p = true))
    (hb : ∃ b, dictGet pi "date_of_birth" = some (.str b) ∧
      (b = "" ∨ dobMatch b = true))
    (hli : ∃ v, dictGet pi "linkedin" = some (.str v) ∧
      ((v = "" ∧ L.linkedin = "") ∨ pyStartsWith v "http" = true))
    (hgh : ∃ v, dictGet pi "github" = some (.str v) ∧
      ((v = "" ∧ L.github = "") ∨ pyStartsWith v "http" = true))
    (hsm : dictGet d "professional_summary" = some (.dict sm))
    (hsmk : ∀ f ∈ summaryFields, (dictGet sm f).isSome)
    (hed : dictGet d "education" = some (.list xsEd))
    (hedk : ∀ x ∈ xsEd, ∃ e, x = .dict e ∧
      ∀ fe ∈ educationFields, (dictGet e fe).isSome)
    (hxp : dictGet d "experience" = some (.list xsXp))
    (hxpk : ∀ x ∈ xsXp, ∃ e, x = .dict e ∧
      ∀ fe ∈ experienceFields, (dictGet e fe).isSome)
    (hpr : dictGet d "projects" = some (.list xsPr))
    (hprk : ∀ x ∈ xsPr, ∃ e, x = .dict e ∧
      ∀ fe ∈ projectAllFields, (dictGet e fe).isSome)
    (hrc : (dictGet d "relevant_coursework").isSome)
    (hcf : (dictGet d "certifications").isSome)
    (hhb : (dictGet d "extracurricular_hobbies").isSome) :
    normalizeResume d L = .ok d := by
  rw [normalizeResume]
  rw [stagePI_id d L pi hpi hpik he hp hb hli hgh, except_bind_ok]
  rw [stageSummary_id d sm hsm hsmk, except_bind_ok]
  rw [stageSection_id "education" _ d xsEd hed (fun x hx => by
    rcases hedk x hx with ⟨e, rfl, hk⟩
    exact entryFieldDefaults_id educationFields e hk), except_bind_ok]
  rw [stageSection_id "experience" _ d xsXp hxp (fun x hx => by
    rcases hxpk x hx with ⟨e, rfl, hk⟩
    exact entryFieldDefaults_id experienceFields e hk), except_bind_ok]
  rw [stageSection_id "projects" _ d xsPr hpr (fun x hx => by
    rcases hprk x hx with ⟨e, rfl, hk⟩
    exact normalizeProject_id e hk), except_bind_ok]
  show pure (stageTail d) = _
  rw [stageTail_id d hrc hcf hhb]
  rfl

/-- Witness for the amended C9: the fully defaulted record with an empty
scraped-links input is a fixed point of the pass. -/
theorem wit_C9 :
    normalizeResume defaultRecord ⟨"", ""⟩ = .ok defaultRecord := by
  exact claim_C9_idempotent_amended defaultRecord ⟨"", ""⟩ defaultPI
    [("summary", .str ""), ("skills", .list []), ("languages", .list [])]
    [] [] []
    rfl (by decide)
    ⟨"", rfl, Or.inl rfl⟩ ⟨"", rfl, Or.inl rfl⟩ ⟨"", rfl, Or.inl rfl⟩
    ⟨"", rfl, Or.inl ⟨rfl, rfl⟩⟩ ⟨"", rfl, Or.inl ⟨rfl, rfl⟩⟩
    rfl (by decide)
    rfl (fun x hx => absurd hx (List.not_mem_nil x))
    rfl (fun x hx => absurd hx (List.not_mem_nil x))
    rfl (fun x hx => absurd hx (List.not_mem_nil x))
    (by decide) (by decide) (by decide)

/-! ## Claim C2: the normalizer never raises -/

/-- Counterexample to C2 as stated: on a mapping whose
personal-information section stores a null LinkedIn value, the normalizer
raises `AttributeError` (from `pi.get("linkedin", "").strip()`) instead of
terminating normally. -/
theorem cx_C2_normalizer_raises :
    normalizeResume cxNullLinkRecord ⟨"", ""⟩ = .error .attributeError := rfl

/-- C2 (amended): the normalizer terminates normally — producing a fully
populated mapping with invalid contact values cleared — PROVIDED the
present values are well-typed: the personal-information section (if
present) a dict whose present leaf values are strings, the professional
summary (if present) a dict, and the education/experience/projects
sections (if present) lists of dicts. On wrong-typed values (e.g. a null
or numeric contact field, a string-valued section) it raises. -/
theorem claim_C2_normalizer_amended (d : PyDict) (L : Links)
    (hpi : ∀ pv, dictGet d "personal_information" = some pv →
      ∃ pi0, pv = .dict pi0 ∧ piFieldsAreStrings pi0)
    (hsm : ∀ pv, dictGet d "professional_summary" = some pv → ∃ sm, pv = .dict sm)
    (hed : ∀ pv, dictGet d "education" = some pv →
      ∃ xs, pv = .list xs ∧ ∀ x ∈ xs, ∃ e, x = .dict e)
    (hxp : ∀ pv, dictGet d "experience" = some pv →
      ∃ xs, pv = .list xs ∧ ∀ x ∈ xs, ∃ e, x = .dict e)
    (hpr : ∀ pv, dictGet d "projects" = some pv →
      ∃ xs, pv = .list xs ∧ ∀ x ∈ xs, ∃ e, x = .dict e) :
    ∃ r, normalizeResume d L = .ok r ∧ fullyPopulated r = true := by
  rw [normalizeResume]
  rcases stagePI_ok d L hpi with ⟨d1, pi1, h1, h1pi, h1str, h1pres⟩
  rw [h1, except_bind_ok]
  rcases stageSummary_ok d1 (fun pv hpv => hsm pv
      (by rw [← h1pres "professional_summary" (by decide)]; exact hpv)) with
    ⟨d2, sm1, h2, h2sm, h2k, h2pres⟩
  rw [h2, except_bind_ok]
  rcases stageSection_ok "education" (entryFieldDefaults educationFields)
      (entryHasKeys educationFields) d2
      (fun e => by
        rcases entryFieldDefaults_keys educationFields e with ⟨e', ha, hb⟩
        exact ⟨.dict e', ha, hb⟩)
      (fun pv hpv => hed pv (by
        rw [← h1pres "education" (by decide), ← h2pres "education" (by decide)]
        exact hpv)) with
    ⟨d3, ysEd, h3, h3ed, h3all, h3pres⟩
  rw [h3, except_bind_ok]
  rcases stageSection_ok "experience" (entryFieldDefaults experienceFields)
      (entryHasKeys experienceFields) d3
      (fun e => by
        rcases entryFieldDefaults_keys experienceFields e with ⟨e', ha, hb⟩
        exact ⟨.dict e', ha, hb⟩)
      (fun pv hpv => hxp pv (by
        rw [← h1pres "experience" (by decide), ← h2pres "experience" (by decide),
          ← h3pres "experience" (by decide)]
        exact hpv)) with
    ⟨d4, ysXp, h4, h4xp, h4all, h4pres⟩
  rw [h4, except_bind_ok]
  rcases stageSection_ok "projects" normalizeProject
      (entryHasKeys projectAllFields) d4
      (fun e => by
        rcases normalizeProject_keys e with ⟨e', ha, hb⟩
        exact ⟨.dict e', ha, hb⟩)
      (fun pv hpv => hpr pv (by
        rw [← h1pres "projects" (by decide), ← h2pres "projects" (by decide),
          ← h3pres "projects" (by decide), ← h4pres "projects" (by decide)]
        exact hpv)) with
    ⟨d5, ysPr, h5, h5pr, h5all, h5pres⟩
  rw [h5, except_bind_ok]
  refine ⟨stageTail d5, rfl, ?_⟩
  have hrPi : dictGet (stageTail d5) "personal_information" = some (.dict pi1) := by
    rw [dictGet_stageTail_ne d5 _ (by decide) (by decide) (by decide),
      h5pres _ (by decide), h4pres _ (by decide), h3pres _ (by decide),
      h2pres _ (by decide)]
    exact h1pi
  have hrSm : dictGet (stageTail d5) "professional_summary" = some (.dict sm1) := by
    rw [dictGet_stageTail_ne d5 _ (by decide) (by decide) (by decide),
      h5pres _ (by decide), h4pres _ (by decide), h3pres _ (by decide)]
    exact h2sm
  have hrEd : dictGet (stageTail d5) "education" = some (.list ysEd) := by
    rw [dictGet_stageTail_ne d5 _ (by decide) (by decide) (by decide),
      h5pres _ (by decide), h4pres _ (by decide)]
    exact h3ed
  have hrXp : dictGet (stageTail d5) "experience" = some (.list ysXp) := by
    rw [dictGet_stageTail_ne d5 _ (by decide) (by decide) (by decide),
      h5pres _ (by decide)]
    exact h4xp
  have hrPr : dictGet (stageTail d5) "projects" = some (.list ysPr) := by
    rw [dictGet_stageTail_ne d5 _ (by decide) (by decide) (by decide)]
    exact h5pr
  rw [fullyPopulated, hrPi, hrSm, hrEd, hrXp, hrPr]
  simp only [Bool.and_eq_true]
  refine ⟨⟨⟨⟨⟨?_, ?_⟩, ?_⟩, ?_⟩, ?_⟩, ?_⟩
  · rw [List.all_eq_true]
    intro k hk
    have hk8 : k = "personal_information" ∨ k = "professional_summary" ∨
        k = "education" ∨ k = "experience" ∨ k = "projects" ∨
        k = "relevant_coursework" ∨ k = "certifications" ∨
        k = "extracurricular_hobbies" := by
      simpa [schemaTopKeys] using hk
    rcases hk8 with rfl | rfl | rfl | rfl | rfl | rfl | rfl | rfl
    · rw [hrPi]; rfl
    · rw [hrSm]; rfl
    · rw [hrEd]; rfl
    · rw [hrXp]; rfl
    · rw [hrPr]; rfl
    · exact (stageTail_keys d5).1
    · exact (stageTail_keys d5).2.1
    · exact (stageTail_keys d5).2.2
  · rw [List.all_eq_true]
    intro f hf
    rcases h1str f hf with ⟨s, hs⟩
    rw [hs]
    rfl
  · rw [List.all_eq_true]
    intro f hf
    exact h2k f hf
  · exact h3all
  · exact h4all
  · exact h5all

/-- Witness for the amended C2: on the empty mapping (every hypothesis
vacuous) the normalizer succeeds with a fully populated record. -/
theorem wit_C2 :
    ∃ r, normalizeResume [] ⟨"", ""⟩ = .ok r ∧ fullyPopulated r = true :=
  claim_C2_normalizer_amended [] ⟨"", ""⟩
    (fun pv hpv => by cases hpv) (fun pv hpv => by cases hpv)
    (fun pv hpv => by cases hpv) (fun pv hpv => by cases hpv)
    (fun pv hpv => by cases hpv)
